import Mathlib

/-! Data pipeline: validation, anonymization, record transformer, paginated fetcher.

A shallow embedding of `scripts/process_data.mjs`, `scripts/fetch_source.mjs` and
`scripts/generate_seeds.mjs`.

Modelling conventions
* JavaScript values are the JSON values plus the few host values the code can
  meet through the prototype chain of a parsed object.  A number is kept as the
  text that `String` prints for it; equality under `includes` and truthiness
  are read off that text.
* A string conversion that throws a TypeError is the result `none`, and so is
  every function that the exception leaves.
* An object is the list of its own entries in `Object.entries` order.
* A record is an object, as in the data model (a mapping of field names).
* The clock, the file system and the network are inputs: a time stamp string,
  the parsed contents of a file, and a function answering each request.
-/

namespace Pipeline

/-! ## JavaScript values -/

/-- JavaScript values reachable by the pipeline. A number is its text under
`String` (1, -2.5, 1e+21; both zeros are 0), so that two numbers are the
same value for `includes` exactly when the texts are equal. `native` is a
built-in function inherited from `Object.prototype` and `objectPrototype` is
that prototype itself. -/
inductive JVal where
  | null : JVal
  | undefined : JVal
  | bool (b : Bool) : JVal
  | num (text : String) : JVal
  | str (s : String) : JVal
  | arr (items : List JVal) : JVal
  | obj (fields : List (String × JVal)) : JVal
  | native (name : String) : JVal
  | objectPrototype : JVal

/-- An object as the list of its own entries. -/
abbrev Obj := List (String × JVal)

/-- Own string keys of `Object.prototype`; every parsed object inherits them. -/
def objectPrototypeKeys : List String :=
  ["constructor", "__defineGetter__", "__defineSetter__", "hasOwnProperty",
   "__lookupGetter__", "__lookupSetter__", "isPrototypeOf", "propertyIsEnumerable",
   "toString", "valueOf", "__proto__", "toLocaleString"]

/-- The object has `k` as an own property. -/
def hasOwn (o : Obj) (k : String) : Bool :=
  o.any (fun p => p.1 == k)

/-- The JavaScript test `k in o`: own properties and the inherited ones. -/
def hasProperty (o : Obj) (k : String) : Bool :=
  hasOwn o k || objectPrototypeKeys.contains k

/-- Value found on the prototype for a name that is not an own property. -/
def inheritedValue (k : String) : JVal :=
  if k == "__proto__" then JVal.objectPrototype
  else if k == "constructor" then JVal.native "Object"
  else if objectPrototypeKeys.contains k then JVal.native k
  else JVal.undefined

/-- The JavaScript read `o[k]`. -/
def getProperty (o : Obj) (k : String) : JVal :=
  match o.lookup k with
  | some v => v
  | none => inheritedValue k

/-- Replace the value of the own property `k`, keeping its position. -/
def replaceOwn (k : String) (v : JVal) : Obj → Obj
  | [] => []
  | (k1, v1) :: rest =>
    if k1 == k then (k1, v) :: rest else (k1, v1) :: replaceOwn k v rest

/-- The JavaScript write `o[k] = v` on a parsed object or a spread copy of one,
for the values the pipeline writes (strings, null, undefined).  An own property
is overwritten in place.  Otherwise the name is created as a new own property,
except `__proto__`, whose inherited setter ignores such a value. -/
def setProperty (o : Obj) (k : String) (v : JVal) : Obj :=
  if hasOwn o k then replaceOwn k v o
  else if k == "__proto__" then o
  else o ++ [(k, v)]

/-- The JavaScript operator `typeof`. -/
def jsTypeof : JVal → String
  | JVal.null => "object"
  | JVal.undefined => "undefined"
  | JVal.bool _ => "boolean"
  | JVal.num _ => "number"
  | JVal.str _ => "string"
  | JVal.arr _ => "object"
  | JVal.obj _ => "object"
  | JVal.native _ => "function"
  | JVal.objectPrototype => "object"

/-- The test `Array.isArray`. -/
def isArray : JVal → Bool
  | JVal.arr _ => true
  | _ => false

mutual
/-- The conversion `String(v)`, also used by template literals; `none` is the
TypeError `Cannot convert object to primitive value`. A parsed object with an
own property `toString` has no string form: that property is not callable
and the inherited `valueOf` returns the object itself. Any other parsed object
prints through `Object.prototype.toString`, an array through `join`. -/
def toStr : JVal → Option String
  | JVal.null => some "null"
  | JVal.undefined => some "undefined"
  | JVal.bool true => some "true"
  | JVal.bool false => some "false"
  | JVal.num text => some text
  | JVal.str s => some s
  | JVal.arr items => joinWith "," items
  | JVal.obj fields =>
    match fields.lookup "toString" with
    | some _ => none
    | none => some "[object Object]"
  | JVal.native name => some ("function " ++ name ++ "() \x7b [native code] \x7d")
  | JVal.objectPrototype => some "[object Object]"
/-- The method `Array.prototype.join`: null and undefined elements print as
empty, every other element through `String`; it throws when an element does. -/
def joinWith (sep : String) : List JVal → Option String
  | [] => some ""
  | [x] => joinElem x
  | x :: y :: rest =>
    match joinElem x with
    | none => none
    | some a =>
      match joinWith sep (y :: rest) with
      | none => none
      | some b => some (a ++ sep ++ b)
/-- One element of a joined array. -/
def joinElem : JVal → Option String
  | JVal.null => some ""
  | JVal.undefined => some ""
  | JVal.bool true => some "true"
  | JVal.bool false => some "false"
  | JVal.num text => some text
  | JVal.str s => some s
  | JVal.arr items => joinWith "," items
  | JVal.obj fields =>
    match fields.lookup "toString" with
    | some _ => none
    | none => some "[object Object]"
  | JVal.native name => some ("function " ++ name ++ "() \x7b [native code] \x7d")
  | JVal.objectPrototype => some "[object Object]"
end

/-- The comparison used by `Array.prototype.includes`: primitives compare by
value; an array or object of a record is never the same reference as one in a
schema read from another document. -/
def sameValueZero : JVal → JVal → Bool
  | JVal.null, JVal.null => true
  | JVal.undefined, JVal.undefined => true
  | JVal.bool a, JVal.bool b => a == b
  | JVal.num a, JVal.num b => a == b
  | JVal.str a, JVal.str b => a == b
  | _, _ => false

/-- The method `xs.includes(v)`. -/
def includes (xs : List JVal) (v : JVal) : Bool :=
  xs.any (fun x => sameValueZero x v)

/-! ## SchemaValidator (`validateAgainstSchema`) -/

/-- One entry of `schema.properties`: the declared `type` and the optional `enum`. -/
structure PropSchema where
  type : Option String
  enum : Option (List JVal)

/-- A schema document: `required` and `properties`, each possibly absent. -/
structure Schema where
  required : Option (List String)
  properties : Option (List (String × PropSchema))

/-- The messages pushed by the loop over `schema.required`. -/
def requiredErrors (data : Obj) : List String → List String
  | [] => []
  | field :: rest =>
    if !(hasProperty data field) then
      ("Missing required field: " ++ field) :: requiredErrors data rest
    else requiredErrors data rest

/-- The if/else-if chain on `expectedType`. -/
def typeErrors (key : String) (expectedType : Option String) (value : JVal) : List String :=
  if expectedType = some "string" ∧ jsTypeof value ≠ "string" then
    ["Field \x27" ++ key ++ "\x27 should be string, got " ++ jsTypeof value]
  else if expectedType = some "number" ∧ jsTypeof value ≠ "number" then
    ["Field \x27" ++ key ++ "\x27 should be number, got " ++ jsTypeof value]
  else if expectedType = some "boolean" ∧ jsTypeof value ≠ "boolean" then
    ["Field \x27" ++ key ++ "\x27 should be boolean, got " ++ jsTypeof value]
  else if expectedType = some "object" ∧ (jsTypeof value ≠ "object" ∨ value matches JVal.null) then
    ["Field \x27" ++ key ++ "\x27 should be object, got " ++ jsTypeof value]
  else if expectedType = some "array" ∧ isArray value = false then
    ["Field \x27" ++ key ++ "\x27 should be array, got " ++ jsTypeof value]
  else []

/-- The text of an enum violation for the string form `text` of the value and
the joined enum members `joined`. -/
def enumText (key text joined : String) : String :=
  "Field \x27" ++ key ++ "\x27 value \x27" ++ text ++ "\x27 not in allowed values: " ++ joined

/-- The enum violation built by the template literal of line 79 from
`String(value)` and `enum.join(', ')`; `none` when either throws. -/
def enumMessage (key : String) (value : JVal) (allowed : List JVal) : Option String :=
  match toStr value with
  | none => none
  | some text =>
    match joinWith ", " allowed with
    | none => none
    | some joined => some (enumText key text joined)

/-- The enum check of one property; `none` when building the message throws. -/
def enumErrors (key : String) (enum : Option (List JVal)) (value : JVal) :
    Option (List String) :=
  match enum with
  | some allowed =>
    if !(includes allowed value) then
      match enumMessage key value allowed with
      | none => none
      | some m => some [m]
    else some []
  | none => some []

/-- The body of the loop over `Object.entries(schema.properties)` for one entry:
the messages it pushes, or `none` when it throws. -/
def propertyErrors (data : Obj) (entry : String × PropSchema) : Option (List String) :=
  if hasProperty data entry.1 then
    match enumErrors entry.1 entry.2.enum (getProperty data entry.1) with
    | none => none
    | some e => some (typeErrors entry.1 entry.2.type (getProperty data entry.1) ++ e)
  else some []

/-- The loop over the schema properties, in declaration order. -/
def propertiesErrors (data : Obj) : List (String × PropSchema) → Option (List String)
  | [] => some []
  | entry :: rest =>
    match propertyErrors data entry with
    | none => none
    | some e =>
      match propertiesErrors data rest with
      | none => none
      | some es => some (e ++ es)

/-- The function `validateAgainstSchema(data, schema)`: the list it returns, or
`none` when it throws. -/
def validateAgainstSchema (data : Obj) (schema : Schema) : Option (List String) :=
  match (match schema.properties with
    | some properties => propertiesErrors data properties
    | none => some []) with
  | none => none
  | some es =>
    some ((match schema.required with
      | some required => requiredErrors data required
      | none => []) ++ es)

/-! ## SHA-256 (`createHash('sha256')`), over 32-bit words kept as `Nat` -/

/-- Round constants of SHA-256. -/
def sha256K : List Nat :=
  [0x428a2f98, 0x71374491, 0xb5c0fbcf, 0xe9b5dba5, 0x3956c25b, 0x59f111f1, 0x923f82a4, 0xab1c5ed5,
   0xd807aa98, 0x12835b01, 0x243185be, 0x550c7dc3, 0x72be5d74, 0x80deb1fe, 0x9bdc06a7, 0xc19bf174,
   0xe49b69c1, 0xefbe4786, 0x0fc19dc6, 0x240ca1cc, 0x2de92c6f, 0x4a7484aa, 0x5cb0a9dc, 0x76f988da,
   0x983e5152, 0xa831c66d, 0xb00327c8, 0xbf597fc7, 0xc6e00bf3, 0xd5a79147, 0x06ca6351, 0x14292967,
   0x27b70a85, 0x2e1b2138, 0x4d2c6dfc, 0x53380d13, 0x650a7354, 0x766a0abb, 0x81c2c92e, 0x92722c85,
   0xa2bfe8a1, 0xa81a664b, 0xc24b8b70, 0xc76c51a3, 0xd192e819, 0xd6990624, 0xf40e3585, 0x106aa070,
   0x19a4c116, 0x1e376c08, 0x2748774c, 0x34b0bcb5, 0x391c0cb3, 0x4ed8aa4a, 0x5b9cca4f, 0x682e6ff3,
   0x748f82ee, 0x78a5636f, 0x84c87814, 0x8cc70208, 0x90befffa, 0xa4506ceb, 0xbef9a3f7, 0xc67178f2]

/-- Initial hash value of SHA-256. -/
def sha256Init : List Nat :=
  [0x6a09e667, 0xbb67ae85, 0x3c6ef372, 0xa54ff53a, 0x510e527f, 0x9b05688c, 0x1f83d9ab, 0x5be0cd19]

/-- Rotate a 32-bit word right by `n` bits. -/
def rotr (x n : Nat) : Nat :=
  ((x >>> n) ||| (x <<< (32 - n))) % 2 ^ 32

/-- Addition modulo 2^32. -/
def add32 (a b : Nat) : Nat := (a + b) % 2 ^ 32

/-- Message padding: a one bit, zeros, and the bit length as 8 big-endian bytes. -/
def sha256Pad (bytes : List Nat) : List Nat :=
  bytes ++ [0x80] ++ List.replicate ((119 - bytes.length % 64) % 64) 0 ++
    (List.range 8).map (fun i => ((bytes.length * 8) >>> (8 * (7 - i))) % 256)

/-- Split a list into consecutive blocks of `n` items (`k` blocks at most). -/
def chunksOf (n : Nat) : Nat → List Nat → List (List Nat)
  | 0, _ => []
  | k + 1, xs => if xs.isEmpty then [] else xs.take n :: chunksOf n k (xs.drop n)

/-- Big-endian 32-bit words of a 64-byte block. -/
def blockWords (block : List Nat) : List Nat :=
  (List.range 16).map (fun i =>
    block.getD (4 * i) 0 * 2 ^ 24 + block.getD (4 * i + 1) 0 * 2 ^ 16 +
      block.getD (4 * i + 2) 0 * 2 ^ 8 + block.getD (4 * i + 3) 0)

/-- Extend the message schedule by `n` words. -/
def extendSchedule : Nat → List Nat → List Nat
  | 0, w => w
  | n + 1, w =>
    let i := w.length
    let w15 := w.getD (i - 15) 0
    let w2 := w.getD (i - 2) 0
    let s0 := (rotr w15 7 ^^^ rotr w15 18) ^^^ (w15 >>> 3)
    let s1 := (rotr w2 17 ^^^ rotr w2 19) ^^^ (w2 >>> 10)
    extendSchedule n (w ++ [add32 (add32 (add32 (w.getD (i - 16) 0) s0) (w.getD (i - 7) 0)) s1])

/-- One round of the compression function on the working variables `a..h`. -/
def sha256Round (v : List Nat) (kw : Nat × Nat) : List Nat :=
  let a := v.getD 0 0
  let b := v.getD 1 0
  let c := v.getD 2 0
  let d := v.getD 3 0
  let e := v.getD 4 0
  let f := v.getD 5 0
  let g := v.getD 6 0
  let h := v.getD 7 0
  let s1 := (rotr e 6 ^^^ rotr e 11) ^^^ rotr e 25
  let ch := (e &&& f) ^^^ ((0xffffffff - e) &&& g)
  let t1 := add32 (add32 (add32 (add32 h s1) ch) kw.1) kw.2
  let s0 := (rotr a 2 ^^^ rotr a 13) ^^^ rotr a 22
  let maj := ((a &&& b) ^^^ (a &&& c)) ^^^ (b &&& c)
  let t2 := add32 s0 maj
  [add32 t1 t2, a, b, c, add32 d t1, e, f, g]

/-- Compression of one block into the hash state. -/
def sha256Compress (state : List Nat) (block : List Nat) : List Nat :=
  let w := extendSchedule 48 (blockWords block)
  let v := (sha256K.zip w).foldl sha256Round state
  (List.range 8).map (fun i => add32 (state.getD i 0) (v.getD i 0))

/-- The eight state words after hashing the bytes. -/
def sha256Words (bytes : List Nat) : List Nat :=
  (chunksOf 64 (bytes.length / 64 + 2) (sha256Pad bytes)).foldl sha256Compress sha256Init

/-- Lowercase hexadecimal digit of a value below 16. -/
def hexDigit (n : Nat) : Char :=
  "0123456789abcdef".toList.getD (n % 16) (Char.ofNat 48)

/-- The eight hexadecimal digits of a 32-bit word. -/
def hexWord (w : Nat) : List Char :=
  (List.range 8).map (fun i => hexDigit (w >>> (4 * (7 - i))))

/-- The function `digest('hex')`: 64 hexadecimal digits. -/
def hexDigest (words : List Nat) : List Char :=
  hexWord (words.getD 0 0) ++ hexWord (words.getD 1 0) ++ hexWord (words.getD 2 0) ++
  hexWord (words.getD 3 0) ++ hexWord (words.getD 4 0) ++ hexWord (words.getD 5 0) ++
  hexWord (words.getD 6 0) ++ hexWord (words.getD 7 0)

/-- The UTF-8 encoding of one code point. -/
def utf8EncodeNat (c : Nat) : List Nat :=
  if c < 0x80 then [c]
  else if c < 0x800 then [0xC0 + c / 64, 0x80 + c % 64]
  else if c < 0x10000 then [0xE0 + c / 4096, 0x80 + (c / 64) % 64, 0x80 + c % 64]
  else [0xF0 + c / 262144, 0x80 + (c / 4096) % 64, 0x80 + (c / 64) % 64, 0x80 + c % 64]

/-- The UTF-8 bytes of a string, as `update(string)` hashes them. -/
def utf8Bytes (s : String) : List Nat :=
  s.toList.flatMap (fun c => utf8EncodeNat c.toNat)

/-- The call `createHash('sha256').update(s).digest('hex')`. -/
def sha256Hex (s : String) : List Char :=
  hexDigest (sha256Words (utf8Bytes s))

/-! ## FieldAnonymizer (`anonymizeField`, `anonymizeRecord`) -/

/-- The test `value === null || value === undefined`. -/
def isNullish : JVal → Bool
  | JVal.null => true
  | JVal.undefined => true
  | _ => false

/-- The 16 hexadecimal digits `hash` computed by `anonymizeField` from
`strValue`, the string form of the value. -/
def fingerprint (strValue : String) (fieldName : String) : List Char :=
  (sha256Hex (("ANON_SALT_" ++ fieldName ++ "_v1") ++ strValue ++ fieldName)).take 16

/-- The placeholder returned for a value with the string form `strValue`. -/
def placeholder (strValue : String) (fieldName : String) : String :=
  if fieldName = "email" then
    "anon-" ++ String.mk (fingerprint strValue fieldName) ++ "@anonymized.local"
  else if fieldName = "phone" then
    "+1-XXX-XXX-" ++ String.mk ((fingerprint strValue fieldName).take 4)
  else if fieldName = "address" then
    "[REDACTED-" ++ String.mk ((fingerprint strValue fieldName).take 8) ++ "]"
  else
    "[ANONYMIZED-" ++ String.mk ((fingerprint strValue fieldName).take 8) ++ "]"

/-- The function `anonymizeField(value, fieldName)`; `none` when `String(value)`
throws. -/
def anonymizeField (value : JVal) (fieldName : String) : Option JVal :=
  if isNullish value then some value
  else
    match toStr value with
    | none => none
    | some strValue => some (JVal.str (placeholder strValue fieldName))

/-- One iteration of the loop of `anonymizeRecord`. -/
def anonymizeStep (anonymized : Obj) (field : String) : Option Obj :=
  if hasProperty anonymized field then
    match anonymizeField (getProperty anonymized field) field with
    | none => none
    | some v => some (setProperty anonymized field v)
  else some anonymized

/-- The function `anonymizeRecord(record, fieldsToAnonymize)`; the spread copy of
the record is the list of its entries. -/
def anonymizeRecord (record : Obj) : List String → Option Obj
  | [] => some record
  | field :: rest =>
    match anonymizeStep record field with
    | none => none
    | some anonymized => anonymizeRecord anonymized rest

/-! ## RecordTransformer (the record loop of `processRawFile`) -/

/-- The setting `sourceConfig.anonymization`. -/
structure Anonymization where
  enabled : Bool
  fields : Option (List String)

/-- The parts of a source descriptor read by `processRawFile`. -/
structure SourceConfig where
  id : String
  anonymization : Option Anonymization

/-- One entry of the validation report. -/
structure ValidationError where
  recordIndex : Nat
  errors : List String

/-- The variables of the record loop. -/
structure LoopState where
  processedRecords : List Obj
  validationErrors : List ValidationError
  anonymizedCount : Nat

/-- The field list when `anonymization?.enabled && anonymization?.fields` holds. -/
def anonymizationFields (sourceConfig : SourceConfig) : Option (List String) :=
  match sourceConfig.anonymization with
  | some a => if a.enabled then a.fields else none
  | none => none

/-- The violations of a record: `validateAgainstSchema` when a schema is
loaded, none otherwise. -/
def errorsOf (schema : Option Schema) (record : Obj) : Option (List String) :=
  match schema with
  | some sch => validateAgainstSchema record sch
  | none => some []

/-- The body of the record loop for the record at index `i`; `none` when the
validation or the anonymization throws. -/
def processRecord (schema : Option Schema) (sourceConfig : SourceConfig)
    (st : LoopState) (i : Nat) (record : Obj) : Option LoopState :=
  match errorsOf schema record with
  | none => none
  | some errors =>
    if errors.length > 0 then
      some { st with validationErrors :=
        st.validationErrors ++ [ValidationError.mk i errors] }
    else
      match anonymizationFields sourceConfig with
      | some fields =>
        match anonymizeRecord record fields with
        | none => none
        | some anonymized =>
          some { st with processedRecords := st.processedRecords ++ [anonymized],
                         anonymizedCount := st.anonymizedCount + 1 }
      | none => some { st with processedRecords := st.processedRecords ++ [record] }

/-- The record loop from index `i` on. -/
def recordLoop (schema : Option Schema) (sourceConfig : SourceConfig) :
    List Obj → Nat → LoopState → Option LoopState
  | [], _, st => some st
  | record :: rest, i, st =>
    match processRecord schema sourceConfig st i record with
    | none => none
    | some st1 => recordLoop schema sourceConfig rest (i + 1) st1

/-- The file-name form of a time stamp: `toISOString().replace(/[:.]/g, '-')`. -/
def fileTimestamp (iso : String) : String :=
  String.mk (iso.toList.map
    (fun c => if c = Char.ofNat 58 ∨ c = Char.ofNat 46 then Char.ofNat 45 else c))

/-- The value returned by `processRawFile`. -/
structure ProcessResult where
  originalCount : Nat
  processedCount : Nat
  errorCount : Nat
  processedFile : String

/-- The name `processRawFile` gives to its output file. -/
def processedFilename (sourceId iso : String) : String :=
  "processed-" ++ sourceId ++ "-" ++ fileTimestamp iso ++ ".json"

/-- The state of the record loop of `processRawFile` when it ends; `none`
when an exception leaves the loop. -/
def processRecords (records : List Obj) (schema : Option Schema)
    (sourceConfig : SourceConfig) : Option LoopState :=
  recordLoop schema sourceConfig records 0 (LoopState.mk [] [] 0)

/-- The function `processRawFile` on a file holding the array `records`, with
`schema` the loaded schema (none when validation is off or loading failed) and
`iso` the current time as an ISO string; `none` when the record loop throws. -/
def processRawFile (records : List Obj) (schema : Option Schema)
    (sourceConfig : SourceConfig) (iso : String) : Option ProcessResult :=
  match processRecords records schema sourceConfig with
  | none => none
  | some st =>
    some { originalCount := records.length,
           processedCount := st.processedRecords.length,
           errorCount := st.validationErrors.length,
           processedFile := processedFilename sourceConfig.id iso }

/-! ## PaginatedFetcher (the loops of `fetchFromRestAPI` for one endpoint) -/

/-- The setting `source.config.rateLimit` as written in the configuration. -/
structure RateLimit where
  requestsPerSecond : Option Nat
  retryAttempts : Option Nat
  retryDelay : Option Nat

/-- The setting `endpoint.pagination` as written in the configuration. -/
structure Pagination where
  defaultLimit : Option Nat
  maxPages : Option Nat

/-- The values the loops use, after the destructuring defaults. -/
structure FetchConfig where
  requestsPerSecond : Nat
  retryAttempts : Nat
  retryDelay : Nat
  defaultLimit : Nat
  maxPages : Nat

/-- Destructuring with defaults: `requestsPerSecond = 1, retryAttempts = 3,
retryDelay = 1000` and `defaultLimit = 100, maxPages = 1`. -/
def resolveConfig (rateLimit : RateLimit) (pagination : Pagination) : FetchConfig :=
  { requestsPerSecond := rateLimit.requestsPerSecond.getD 1,
    retryAttempts := rateLimit.retryAttempts.getD 3,
    retryDelay := rateLimit.retryDelay.getD 1000,
    defaultLimit := pagination.defaultLimit.getD 100,
    maxPages := pagination.maxPages.getD 1 }

/-- What one request meets: `failure` is a transport error, a non-success
status or an unreadable body (the try block throws before `success = true`);
`ok body` is a success status with the parsed JSON body. -/
inductive Response where
  | failure : Response
  | ok (body : JVal) : Response

/-- The remote endpoint: the answer to the request for `page` made after
`attempt` failed attempts at that page. -/
abbrev Server := Nat → Nat → Response

/-- Observable steps of the loops. `rateLimitSleep r` is `sleep(1000 / r)`. -/
inductive Event where
  | request (page : Nat) : Event
  | backoffSleep (ms : Nat) : Event
  | rateLimitSleep (requestsPerSecond : Nat) : Event
  deriving DecidableEq

/-- JavaScript truthiness. -/
def truthy : JVal → Bool
  | JVal.null => false
  | JVal.undefined => false
  | JVal.bool b => b
  | JVal.num text => text != "0" && text != "NaN"
  | JVal.str s => s != ""
  | _ => true

/-- The operator `a || b`. -/
def jsOr (a b : JVal) : JVal :=
  if truthy a then a else b

/-- The expression `Array.isArray(data) ? data : (data.data || data.records ||
data.results || [])`; `none` is the TypeError of a property read on null. -/
def responseRecords (data : JVal) : Option JVal :=
  match data with
  | JVal.arr items => some (JVal.arr items)
  | JVal.null => none
  | JVal.undefined => none
  | JVal.obj fields =>
    some (jsOr (jsOr (jsOr (getProperty fields "data") (getProperty fields "records"))
      (getProperty fields "results")) (JVal.arr []))
  | _ => some (JVal.arr [])

/-- Number of UTF-16 code units of a string (its `length`). -/
def utf16Length (s : String) : Nat :=
  (s.toList.map (fun c => if c.toNat < 0x10000 then 1 else 2)).sum

/-- The values pushed by `allRecords.push(...records)`; `none` is the TypeError
of spreading a value that is not iterable. -/
def spreadItems : JVal → Option (List JVal)
  | JVal.arr items => some items
  | JVal.str s => some (s.toList.map (fun c => JVal.str (String.singleton c)))
  | _ => none

/-- The number `records.length` of an array or a string. -/
def recordsLength : JVal → Nat
  | JVal.arr items => items.length
  | JVal.str s => utf16Length s
  | _ => 0

/-- The two statements after `success = true`: the records pushed and the
`length` compared with `defaultLimit`; `none` when either statement throws. -/
def pageRecords (data : JVal) : Option (List JVal × Nat) :=
  match responseRecords data with
  | none => none
  | some records =>
    match spreadItems records with
    | none => none
    | some items => some (items, recordsLength records)

/-- The variables of the page loop and the steps observed so far. -/
structure FetchState where
  allRecords : List JVal
  currentPage : Nat
  hasMorePages : Bool
  events : List Event

/-- The catch block: count the attempt, then back off or give up. The result
is the new attempt count and state. -/
def catchFailure (c : FetchConfig) (attempt : Nat) (st : FetchState) : Nat × FetchState :=
  if attempt + 1 < c.retryAttempts then
    (attempt + 1, { st with events := st.events ++ [Event.backoffSleep (c.retryDelay * (attempt + 1))] })
  else
    (attempt + 1, { st with hasMorePages := false })

/-- The retry loop `while (attempt < retryAttempts && !success)` for `page`,
entered with `success = false`; `fuel` bounds the iterations. -/
def retryLoop (c : FetchConfig) (server : Server) (page : Nat) :
    Nat → Nat → FetchState → FetchState
  | 0, _, st => st
  | fuel + 1, attempt, st =>
    if attempt < c.retryAttempts then
      let st1 := { st with events := st.events ++ [Event.request page] }
      match server page attempt with
      | Response.failure =>
        retryLoop c server page fuel (catchFailure c attempt st1).1 (catchFailure c attempt st1).2
      | Response.ok data =>
        match pageRecords data with
        | none => (catchFailure c attempt st1).2
        | some (items, len) =>
          { st1 with allRecords := st1.allRecords ++ items,
                     hasMorePages := len == c.defaultLimit }
    else st

/-- The page loop `while (hasMorePages && currentPage <= maxPages)`; `fuel`
bounds the iterations. -/
def pageLoop (c : FetchConfig) (server : Server) : Nat → FetchState → FetchState
  | 0, st => st
  | fuel + 1, st =>
    if st.hasMorePages ∧ st.currentPage ≤ c.maxPages then
      let st1 := retryLoop c server st.currentPage c.retryAttempts 0 st
      let st2 := { st1 with currentPage := st1.currentPage + 1 }
      let st3 := if st2.hasMorePages then
          { st2 with events := st2.events ++ [Event.rateLimitSleep c.requestsPerSecond] }
        else st2
      pageLoop c server fuel st3
    else st

/-- The variables before the page loop. -/
def initialFetchState : FetchState :=
  { allRecords := [], currentPage := 1, hasMorePages := true, events := [] }

/-- The page loop of `fetchFromRestAPI` for one endpoint, run to its end: the
retry loop makes at most `retryAttempts` iterations and the page loop at most
`maxPages`. -/
def fetchEndpoint (c : FetchConfig) (server : Server) : FetchState :=
  pageLoop c server c.maxPages initialFetchState

/-- The pages requested, in order. -/
def requestedPages : List Event → List Nat
  | [] => []
  | Event.request p :: rest => p :: requestedPages rest
  | _ :: rest => requestedPages rest

/-- The retry back-off delays slept, in order. -/
def backoffDelays : List Event → List Nat
  | [] => []
  | Event.backoffSleep ms :: rest => ms :: backoffDelays rest
  | _ :: rest => backoffDelays rest

/-! ## Statements of the specification, for comparison with the code -/

/-- Accepted list as the specification words it: the records without a
violation, in input order, each replaced by `anon`; `errs` gives the violations
of a record. -/
def acceptedSpec (records : List Obj) (errs : Obj → List String) (anon : Obj → Obj) :
    List Obj :=
  (records.filter (fun r => (errs r).isEmpty)).map anon

/-- Rejected list as the specification words it: index and violations of the
other records, numbered from `start`. -/
def rejectedSpec (records : List Obj) (errs : Obj → List String) (start : Nat) :
    List ValidationError :=
  ((records.enumFrom start).filter (fun p => !(errs p.2).isEmpty)).map
    (fun p => ValidationError.mk p.1 (errs p.2))

/-- The calls the record loop makes for one record return: the validation gives
a list, and when that list is empty and anonymization is in force the
anonymization gives a record. -/
def recordCompletes (schema : Option Schema) (sourceConfig : SourceConfig) (record : Obj) :
    Prop :=
  ∃ errors, errorsOf schema record = some errors ∧
    (errors = [] → ∀ fields, anonymizationFields sourceConfig = some fields →
      ∃ anonymized, anonymizeRecord record fields = some anonymized)

/-- A record whose field `email` is an object with an own property `toString`. -/
def toStringRecord : Obj :=
  [("id", JVal.str "3"), ("email", JVal.obj [("toString", JVal.num "1")])]

/-- A record whose field `status` is an object with an own property `toString`. -/
def toStringStatusRecord : Obj :=
  [("id", JVal.str "3"), ("status", JVal.obj [("toString", JVal.num "1")])]

/-- The function `anonymizeField` applied `n` times in a row for one field name,
each time to the result of the time before. -/
def anonymizeTimes (fieldName : String) : Nat → JVal → Option JVal
  | 0, v => some v
  | n + 1, v =>
    match anonymizeField v fieldName with
    | none => none
    | some w => anonymizeTimes fieldName n w

/-- The two records of the scenario of the specification. -/
def scenarioRecords : List Obj :=
  [[("id", JVal.str "1"), ("email", JVal.str "a@x.com"), ("status", JVal.str "active")],
   [("id", JVal.str "2"), ("status", JVal.str "bogus")]]

/-- The schema of the scenario: `id` and `status` required, `status` in an enum. -/
def scenarioSchema : Schema :=
  { required := some ["id", "status"],
    properties := some [("status",
      { type := none, enum := some [JVal.str "active", JVal.str "pending"] })] }

/-- The source of the scenario: anonymization of `email`. -/
def scenarioSource : SourceConfig :=
  { id := "demo", anonymization := some { enabled := true, fields := some ["email"] } }

/-- Category of a value in the words of the specification: string, number,
boolean, object or array; null belongs to none of them. -/
def valueCategory : JVal → Option String
  | JVal.str _ => some "string"
  | JVal.num _ => some "number"
  | JVal.bool _ => some "boolean"
  | JVal.arr _ => some "array"
  | JVal.obj _ => some "object"
  | _ => none

/-- The value matches the declared type: for one of the five checked types
the category of the value is that type; any other declaration asks nothing. -/
def matchesDeclaredType (declared : Option String) (v : JVal) : Prop :=
  ∀ t, declared = some t → t ∈ ["string", "number", "boolean", "object", "array"] →
    valueCategory v = some t

/-- The record satisfies the schema in the words of the specification: every
required field is a field of the record, and every schema property present on
the record has a value of the declared type that is a member of the declared
enum when there is one. -/
def satisfiesSchema (data : Obj) (schema : Schema) : Prop :=
  (∀ required, schema.required = some required → ∀ f ∈ required, hasOwn data f = true) ∧
  (∀ props, schema.properties = some props → ∀ e ∈ props, hasOwn data e.1 = true →
    matchesDeclaredType e.2.type (getProperty data e.1) ∧
    (∀ allowed, e.2.enum = some allowed → includes allowed (getProperty data e.1) = true))

/-- A record with field `id` only. -/
def idOnlyRecord : Obj := [("id", JVal.str "1")]

/-- A schema requiring `id` and `constructor`. -/
def requiresConstructorSchema : Schema :=
  { required := some ["id", "constructor"], properties := none }

/-- A schema requiring `id` and declaring the optional string property `constructor`. -/
def declaresConstructorSchema : Schema :=
  { required := some ["id"],
    properties := some [("constructor", { type := some "string", enum := none })] }

/-- A source without anonymization. -/
def plainSource : SourceConfig :=
  { id := "demo", anonymization := none }

/-- A lowercase hexadecimal digit, the class `[0-9a-f]`. -/
def isLowerHex (c : Char) : Bool :=
  "0123456789abcdef".toList.contains c

/-- The pattern `^anon-[0-9a-f]{16}@anonymized\.local$`. -/
def matchesAnonEmail (s : String) : Bool :=
  s.toList.take 5 == "anon-".toList &&
  (s.toList.drop 5).length == 33 &&
  ((s.toList.drop 5).take 16).all isLowerHex &&
  (s.toList.drop 5).drop 16 == "@anonymized.local".toList

/-- The pattern `^\+1-XXX-XXX-[0-9a-f]{4}$`. -/
def matchesAnonPhone (s : String) : Bool :=
  s.toList.take 11 == "+1-XXX-XXX-".toList &&
  (s.toList.drop 11).length == 4 &&
  (s.toList.drop 11).all isLowerHex

/-- The steps of `n` failed attempts at `page` that are followed by another
attempt, the first of them made after `attempt` failures: each is a request
and the back-off `retryDelay * attemptNumber`. -/
def failedAttempts (c : FetchConfig) (page : Nat) : Nat → Nat → List Event
  | _, 0 => []
  | attempt, n + 1 =>
    Event.request page :: Event.backoffSleep (c.retryDelay * (attempt + 1)) ::
      failedAttempts c page (attempt + 1) n

/-- The steps of the pages `first, first + 1, ...` (`n` pages), each fetched at
the first attempt and followed by the rate-limit delay. -/
def fullPagesEvents (c : FetchConfig) (first n : Nat) : List Event :=
  (List.range' first n).flatMap
    (fun q => [Event.request q, Event.rateLimitSleep c.requestsPerSecond])

/-- The configuration of the pagination example: limit 100, at most 5 pages. -/
def exampleConfig : FetchConfig :=
  { requestsPerSecond := 1, retryAttempts := 3, retryDelay := 1000,
    defaultLimit := 100, maxPages := 5 }

/-- Page sizes 100, 100, 37 and nothing afterwards. -/
def examplePageSize (page : Nat) : Nat :=
  if page ≤ 2 then 100 else if page = 3 then 37 else 0

/-- The records of a page of the example. -/
def examplePageItems (page : Nat) : List JVal :=
  List.replicate (examplePageSize page) (JVal.obj [("page", JVal.num (toString page))])

/-- A source answering every request with the page of the example. -/
def exampleServer : Server :=
  fun page _ => Response.ok (JVal.arr (examplePageItems page))

/-- A source whose first page is full and whose every later request fails. -/
def failingServer : Server :=
  fun page _ => if page = 1 then Response.ok (JVal.arr (examplePageItems 1)) else Response.failure

/-- A configuration with limit 2 and at most 5 pages. -/
def oversizeConfig : FetchConfig :=
  { requestsPerSecond := 1, retryAttempts := 3, retryDelay := 1000,
    defaultLimit := 2, maxPages := 5 }

/-- A source ignoring the limit: every page holds three records. -/
def oversizeServer : Server :=
  fun _ _ => Response.ok (JVal.arr [JVal.num "1", JVal.num "2", JVal.num "3"])

/-- The text of a type violation: the declared type and the `typeof` of the value. -/
def typeMessage (key expected : String) (value : JVal) : String :=
  "Field \x27" ++ key ++ "\x27 should be " ++ expected ++ ", got " ++ jsTypeof value

/-- A record whose field `tags` is an array. -/
def taggedRecord : Obj :=
  [("id", JVal.str "1"), ("tags", JVal.arr [JVal.str "a", JVal.str "b"])]

/-- A schema declaring `tags` of type object. -/
def tagsObjectSchema : Schema :=
  { required := some ["id"],
    properties := some [("tags", { type := some "object", enum := none })] }

/-- A configuration with two pages at most and the default retry policy. -/
def twoPageConfig : FetchConfig :=
  { requestsPerSecond := 1, retryAttempts := 3, retryDelay := 1000,
    defaultLimit := 100, maxPages := 2 }

/-- A source answering every request with the JSON body `null`. -/
def nullBodyServer : Server :=
  fun _ _ => Response.ok JVal.null

/-- The rate-limit delays slept, in order (each as its `requestsPerSecond`). -/
def rateLimitDelays : List Event → List Nat
  | [] => []
  | Event.rateLimitSleep r :: rest => r :: rateLimitDelays rest
  | _ :: rest => rateLimitDelays rest

/-- The configuration of an endpoint that sets nothing: all defaults. -/
def defaultConfig : FetchConfig :=
  resolveConfig { requestsPerSecond := none, retryAttempts := none, retryDelay := none }
    { defaultLimit := none, maxPages := none }

/-- Sum of the back-off delays a page can still sleep after `attempt` failed
attempts: `retryDelay * i` for `i` from `attempt + 1` to `retryAttempts - 1`. -/
def remainingBackoff (c : FetchConfig) (attempt : Nat) : Nat :=
  ((List.range' (attempt + 1) (c.retryAttempts - 1 - attempt)).map
    (fun i => c.retryDelay * i)).sum

/-- A configuration with four attempts, one page and a delay of 1000 ms. -/
def fourAttemptsConfig : FetchConfig :=
  { requestsPerSecond := 1, retryAttempts := 4, retryDelay := 1000,
    defaultLimit := 100, maxPages := 1 }

/-- A source failing every request. -/
def alwaysFailingServer : Server :=
  fun _ _ => Response.failure

/-- The string `salt + strValue + fieldName` that `anonymizeField` hashes;
`none` when `String(value)` throws. -/
def hashInput (value : JVal) (fieldName : String) : Option String :=
  match toStr value with
  | none => none
  | some strValue => some (("ANON_SALT_" ++ fieldName ++ "_v1") ++ strValue ++ fieldName)

/-- The digits of the fingerprint that appear in the placeholder: all 16 for
email, the first 4 for phone, the first 8 for any other field name. -/
def placeholderDigits (value : JVal) (fieldName : String) : Option (List Char) :=
  match toStr value with
  | none => none
  | some strValue =>
    some (if fieldName = "email" then fingerprint strValue fieldName
      else if fieldName = "phone" then (fingerprint strValue fieldName).take 4
      else (fingerprint strValue fieldName).take 8)

/-! ## Seed generator (`generate_seeds.mjs`) and raw file lookup -/

/-- The method `split` with a one-character separator, on the characters of
the string. -/
def splitOnChar (sep : Char) : List Char → List (List Char)
  | [] => [[]]
  | c :: cs =>
    if c = sep then [] :: splitOnChar sep cs
    else
      match splitOnChar sep cs with
      | [] => [[c]]
      | part :: parts => (c :: part) :: parts

/-- The expression `processedFilename.split('-')[1]`; undefined when the name
has no hyphen. -/
def extractSourceId (processedFilename : String) : JVal :=
  match (splitOnChar (Char.ofNat 45) processedFilename.toList).get? 1 with
  | some part => JVal.str (String.mk part)
  | none => JVal.undefined

/-- A property written by an object literal after a spread: an own property
keeps its position and takes the new value, a new one goes last. -/
def defineProperty (o : Obj) (k : String) (v : JVal) : Obj :=
  if hasOwn o k then replaceOwn k v o else o ++ [(k, v)]

/-- The record built by the callback of `transformToSeedFormat` for the record
at `index`; `clock index` is the time of that call as an ISO string. The
template literal converts `sourceId` with `String`. -/
def seedRecord (sourceId : JVal) (clock : Nat → String) (index : Nat) (record : Obj) :
    Option Obj :=
  match toStr sourceId with
  | none => none
  | some text =>
    some (defineProperty
      (defineProperty record "seedId" (JVal.str (text ++ "-" ++ toString (index + 1))))
      "seedGeneratedAt" (JVal.str (clock index)))

/-- The map of `transformToSeedFormat` from index `index` on. -/
def transformFrom (sourceId : JVal) (clock : Nat → String) :
    Nat → List Obj → Option (List Obj)
  | _, [] => some []
  | index, record :: rest =>
    match seedRecord sourceId clock index record with
    | none => none
    | some seed =>
      match transformFrom sourceId clock (index + 1) rest with
      | none => none
      | some seeds => some (seed :: seeds)

/-- The function `transformToSeedFormat(records, sourceId)`. -/
def transformToSeedFormat (records : List Obj) (sourceId : JVal) (clock : Nat → String) :
    Option (List Obj) :=
  transformFrom sourceId clock 0 records

/-- The metadata object written by `generateSeedFile`. -/
structure SeedMetadata where
  seedFile : String
  sourceFile : String
  sourceId : JVal
  recordCount : Nat
  generatedAt : String
  lineageProcessedFile : String
  lineageProcessedAt : String

/-- What `generateSeedFile` writes: the seed file and its metadata file. -/
structure SeedOutput where
  seedFilename : String
  seedRecords : List Obj
  metadataFilename : String
  metadata : SeedMetadata

/-- The function `generateSeedFile(processedFilename)` on a processed file
holding `records`; `iso` and `generatedAt` are the current time at lines 51
and 65, `clock` the time at each record. -/
def generateSeedFile (processedFilename : String) (records : List Obj) (iso generatedAt : String)
    (clock : Nat → String) : Option SeedOutput :=
  match transformToSeedFormat records (extractSourceId processedFilename) clock with
  | none => none
  | some seedRecords =>
    match toStr (extractSourceId processedFilename) with
    | none => none
    | some text =>
      some { seedFilename := "seed-" ++ text ++ "-" ++ fileTimestamp iso ++ ".json",
             seedRecords := seedRecords,
             metadataFilename :=
               "seed-metadata-" ++ text ++ "-" ++ fileTimestamp iso ++ ".json",
             metadata :=
               { seedFile := "seed-" ++ text ++ "-" ++ fileTimestamp iso ++ ".json",
                 sourceFile := processedFilename,
                 sourceId := extractSourceId processedFilename,
                 recordCount := seedRecords.length,
                 generatedAt := generatedAt,
                 lineageProcessedFile := processedFilename,
                 lineageProcessedAt := fileTimestamp iso } }

/-- The name of the raw file written by `fetchFromRestAPI` for an endpoint. -/
def rawFilename (sourceId endpointName iso : String) : String :=
  "source-" ++ sourceId ++ "-" ++ endpointName ++ "-" ++ fileTimestamp iso ++ ".json"

/-- The filter of `findRawFilesForSource(sourceId)` on the names in the raw
directory: `startsWith` the source marker and `endsWith` the extension. -/
def findRawFilesForSource (sourceId : String) (files : List String) : List String :=
  files.filter (fun f =>
    ("source-" ++ sourceId ++ "-").toList.isPrefixOf f.toList &&
    ".json".toList.isSuffixOf f.toList)

/-- A source whose id contains a hyphen. -/
def hyphenSource : SourceConfig :=
  { id := "user-api", anonymization := none }

/-- A time stamp as `toISOString` prints it. -/
def sampleIso : String := "2024-01-02T03:04:05.678Z"

/-! ## Theorems: the record transformer -/

theorem processRecord_lengths (schema : Option Schema) (sourceConfig : SourceConfig)
    (st st1 : LoopState) (i : Nat) (record : Obj)
    (h : processRecord schema sourceConfig st i record = some st1) :
    st1.processedRecords.length + st1.validationErrors.length =
      st.processedRecords.length + st.validationErrors.length + 1 := by
  unfold processRecord at h
  cases he : errorsOf schema record with
  | none => simp [he] at h
  | some errors =>
    simp only [he] at h
    by_cases hv : errors.length > 0
    · simp only [hv, if_true, Option.some.injEq] at h
      subst h
      simp
      omega
    · simp only [hv, if_false] at h
      cases hf : anonymizationFields sourceConfig with
      | none =>
        simp only [hf, Option.some.injEq] at h
        subst h
        simp
        omega
      | some fields =>
        simp only [hf] at h
        cases ha : anonymizeRecord record fields with
        | none => simp [ha] at h
        | some anonymized =>
          simp only [ha, Option.some.injEq] at h
          subst h
          simp
          omega

theorem recordLoop_lengths (schema : Option Schema) (sourceConfig : SourceConfig) :
    ∀ (records : List Obj) (i : Nat) (st st1 : LoopState),
      recordLoop schema sourceConfig records i st = some st1 →
      st1.processedRecords.length + st1.validationErrors.length =
        st.processedRecords.length + st.validationErrors.length + records.length := by
  intro records
  induction records with
  | nil =>
    intro i st st1 h
    simp only [recordLoop, Option.some.injEq] at h
    subst h
    simp
  | cons r rs ih =>
    intro i st st1 h
    rw [recordLoop] at h
    cases hp : processRecord schema sourceConfig st i r with
    | none => simp [hp] at h
    | some st2 =>
      simp only [hp] at h
      have h1 := processRecord_lengths schema sourceConfig st st2 i r hp
      have h2 := ih (i + 1) st2 st1 h
      simp only [List.length_cons]
      omega

theorem processRecord_isSome_iff (schema : Option Schema) (sourceConfig : SourceConfig)
    (st : LoopState) (i : Nat) (record : Obj) :
    (processRecord schema sourceConfig st i record).isSome = true ↔
      recordCompletes schema sourceConfig record := by
  unfold processRecord recordCompletes
  cases he : errorsOf schema record with
  | none => simp
  | some errors =>
    by_cases hv : errors.length > 0
    · have hne : errors ≠ [] := List.length_pos.mp hv
      simp [hv, hne]
    · have hnil : errors = [] := by
        cases errors with
        | nil => rfl
        | cons a b => simp at hv
      subst hnil
      cases hf : anonymizationFields sourceConfig with
      | none => simp
      | some fields =>
        cases ha : anonymizeRecord record fields with
        | none => simp [ha]
        | some anonymized => simp [ha]

theorem recordLoop_isSome_iff (schema : Option Schema) (sourceConfig : SourceConfig) :
    ∀ (records : List Obj) (i : Nat) (st : LoopState),
      (recordLoop schema sourceConfig records i st).isSome = true ↔
        ∀ r ∈ records, recordCompletes schema sourceConfig r := by
  intro records
  induction records with
  | nil => intro i st; simp [recordLoop]
  | cons r rs ih =>
    intro i st
    rw [recordLoop]
    have hp := processRecord_isSome_iff schema sourceConfig st i r
    cases hq : processRecord schema sourceConfig st i r with
    | none =>
      rw [hq] at hp
      simp only [Option.isSome_none, Bool.false_eq_true, false_iff] at hp
      simp [hp]
    | some st2 =>
      rw [hq] at hp
      simp only [Option.isSome_some, true_iff] at hp
      simp [ih (i + 1) st2, hp]

/-- C1, counterexample to the claim as stated: for the one record whose email
is an object with an own property toString, with no schema and anonymization
of email enabled, `String(value)` throws inside `anonymizeField`: the record
loop does not end and `processRawFile` returns no counts. -/
theorem record_loop_can_throw :
    toStr (JVal.obj [("toString", JVal.num "1")]) = none ∧
    anonymizeRecord toStringRecord ["email"] = none ∧
    processRecords [toStringRecord] none scenarioSource = none ∧
    processRawFile [toStringRecord] none scenarioSource "2024-01-02T03:04:05.678Z" = none := by
  refine ⟨rfl, rfl, rfl, rfl⟩

/-- C1, amended: the record loop ends exactly when, for every record, the
validation returns and, for an accepted record under anonymization, the
anonymization returns; whenever it ends, the accepted and the rejected list
together are as long as the input, and `processRawFile` returns the input
length as originalCount, the length of the accepted list as processedCount and
the length of the rejected list as errorCount, so that
originalCount = processedCount + errorCount. -/
theorem partition_invariant (records : List Obj) (schema : Option Schema)
    (sourceConfig : SourceConfig) (iso : String) :
    ((∀ r ∈ records, recordCompletes schema sourceConfig r) →
      ∃ st, processRecords records schema sourceConfig = some st) ∧
    (∀ st, processRecords records schema sourceConfig = some st →
      (∀ r ∈ records, recordCompletes schema sourceConfig r) ∧
      st.processedRecords.length + st.validationErrors.length = records.length ∧
      ∃ result, processRawFile records schema sourceConfig iso = some result ∧
        result.originalCount = records.length ∧
        result.processedCount = st.processedRecords.length ∧
        result.errorCount = st.validationErrors.length ∧
        result.originalCount = result.processedCount + result.errorCount) := by
  have hiff := recordLoop_isSome_iff schema sourceConfig records 0 (LoopState.mk [] [] 0)
  refine ⟨fun hall => ?_, fun st hst => ?_⟩
  · exact Option.isSome_iff_exists.mp (hiff.mpr hall)
  · have hlen := recordLoop_lengths schema sourceConfig records 0 (LoopState.mk [] [] 0) st hst
    simp only [List.length_nil, Nat.zero_add] at hlen
    refine ⟨hiff.mp (by rw [show recordLoop schema sourceConfig records 0 (LoopState.mk [] [] 0)
      = some st from hst]; rfl), hlen, ?_⟩
    refine ⟨{ originalCount := records.length,
              processedCount := st.processedRecords.length,
              errorCount := st.validationErrors.length,
              processedFile := processedFilename sourceConfig.id iso },
      by simp only [processRawFile, hst], rfl, rfl, rfl, ?_⟩
    simp only []
    omega

set_option maxRecDepth 100000 in
theorem partition_invariant_witness :
    ∃ st, processRecords scenarioRecords (some scenarioSchema) scenarioSource = some st ∧
      st.processedRecords.length + st.validationErrors.length = 2 ∧
      ∃ result, processRawFile scenarioRecords (some scenarioSchema) scenarioSource
          "2024-01-02T03:04:05.678Z" = some result ∧
        result.originalCount = 2 ∧ result.processedCount = 1 ∧ result.errorCount = 1 := by
  have hst : ∃ st, processRecords scenarioRecords (some scenarioSchema) scenarioSource =
      some st ∧ st.processedRecords.length = 1 ∧ st.validationErrors.length = 1 :=
    ⟨_, rfl, rfl, rfl⟩
  obtain ⟨st, hst, h1, h2⟩ := hst
  have h := (partition_invariant scenarioRecords (some scenarioSchema) scenarioSource
    "2024-01-02T03:04:05.678Z").2 st hst
  obtain ⟨_, hlen, result, hres, ho, hp, he, _⟩ := h
  exact ⟨st, hst, hlen, result, hres, ho, by rw [hp, h1], by rw [he, h2]⟩

theorem recordLoop_spec (schema : Option Schema) (sourceConfig : SourceConfig)
    (errs : Obj → List String) (anon : Obj → Obj) :
    ∀ (records : List Obj) (i : Nat) (st : LoopState),
      (∀ r ∈ records, errorsOf schema r = some (errs r)) →
      (∀ r ∈ records, errs r = [] →
        (match anonymizationFields sourceConfig with
          | some fs => anonymizeRecord r fs
          | none => some r) = some (anon r)) →
      ∃ st1, recordLoop schema sourceConfig records i st = some st1 ∧
        st1.processedRecords = st.processedRecords ++ acceptedSpec records errs anon ∧
        st1.validationErrors = st.validationErrors ++ rejectedSpec records errs i := by
  intro records
  induction records with
  | nil =>
    intro i st _ _
    exact ⟨st, rfl, by simp [acceptedSpec], by simp [rejectedSpec]⟩
  | cons r rs ih =>
    intro i st he ha
    have her := he r (List.mem_cons_self r rs)
    have hrest := fun st2 => ih (i + 1) st2 (fun q hq => he q (List.mem_cons_of_mem r hq))
      (fun q hq => ha q (List.mem_cons_of_mem r hq))
    rw [recordLoop]
    unfold processRecord
    rw [her]
    by_cases hv : (errs r).length > 0
    · have hne : (errs r).isEmpty = false := by
        cases h : errs r with
        | nil => simp [h] at hv
        | cons a b => rfl
      simp only [hv, if_true]
      obtain ⟨st1, h1, h2, h3⟩ := hrest
        { st with validationErrors := st.validationErrors ++ [ValidationError.mk i (errs r)] }
      refine ⟨st1, h1, ?_, ?_⟩
      · rw [h2]
        simp [acceptedSpec, List.filter_cons, hne]
      · rw [h3]
        simp [rejectedSpec, List.enumFrom_cons, List.filter_cons, hne]
    · have hnil : errs r = [] := by
        cases h : errs r with
        | nil => rfl
        | cons a b => simp [h] at hv
      have he2 : (errs r).isEmpty = true := by rw [hnil]; rfl
      have har := ha r (List.mem_cons_self r rs) hnil
      simp only [hv, if_false]
      cases hf : anonymizationFields sourceConfig with
      | none =>
        rw [hf] at har
        simp only [Option.some.injEq] at har
        obtain ⟨st1, h1, h2, h3⟩ := hrest
          { st with processedRecords := st.processedRecords ++ [r] }
        refine ⟨st1, h1, ?_, ?_⟩
        · rw [h2]
          simp only [acceptedSpec, List.filter_cons, he2, if_true, List.map_cons]
          rw [← har]
          simp
        · rw [h3]
          simp [rejectedSpec, List.enumFrom_cons, List.filter_cons, he2]
      | some fs =>
        rw [hf] at har
        have har2 : anonymizeRecord r fs = some (anon r) := har
        simp only []
        rw [har2]
        obtain ⟨st1, h1, h2, h3⟩ := hrest
          { st with processedRecords := st.processedRecords ++ [anon r],
                    anonymizedCount := st.anonymizedCount + 1 }
        refine ⟨st1, h1, ?_, ?_⟩
        · rw [h2]
          simp [acceptedSpec, List.filter_cons, he2]
        · rw [h3]
          simp [rejectedSpec, List.enumFrom_cons, List.filter_cons, he2]

theorem rejectedSpec_indices (records : List Obj) (errs : Obj → List String) (start : Nat) :
    List.Pairwise (fun a b => a < b)
      ((rejectedSpec records errs start).map (fun e => e.recordIndex)) := by
  have hsub : List.Sublist ((rejectedSpec records errs start).map (fun e => e.recordIndex))
      ((records.enumFrom start).map Prod.fst) := by
    simp only [rejectedSpec, List.map_map]
    exact List.Sublist.map _ (List.filter_sublist _)
  refine List.Pairwise.sublist hsub ?_
  rw [List.enumFrom_map_fst]
  exact List.pairwise_lt_range' start records.length

/-- C4, counterexample to the claim as stated: the second record fails the enum
check with a status that is an object with an own property toString; building
the violation text throws, so `processRawFile` produces neither an accepted nor
a rejected list, where the claim puts the record in the rejected list. -/
theorem record_lists_can_be_missing :
    validateAgainstSchema toStringStatusRecord scenarioSchema = none ∧
    processRecords (scenarioRecords.take 1 ++ [toStringStatusRecord]) (some scenarioSchema)
      scenarioSource = none := by
  refine ⟨rfl, rfl⟩

set_option maxRecDepth 100000 in
/-- C4, amended: when the validation of every record returns (`errs r` being its
list of violations) the lists of `processRawFile` are as follows. With
anonymization enabled and a field list, and the anonymization of every
accepted record returning, the accepted list is, in input order, the records
without a violation, each replaced by anonymizeRecord(record, fields); with
anonymization absent, disabled or without a field list it is those records
unchanged. The rejected list holds, in increasing index order, the 0-based
index and the full violation list of exactly the other records. Without a
schema all records are accepted. In the scenario of the specification the
accepted list is the first record with its email anonymized and the rejected
list is the second record with its enum violation. -/
theorem accepted_rejected_characterization :
    (∀ (records : List Obj) (schema : Option Schema) (sourceConfig : SourceConfig)
        (errs : Obj → List String),
      (∀ r ∈ records, errorsOf schema r = some (errs r)) →
      (∀ (fs : List String) (anon : Obj → Obj),
        sourceConfig.anonymization = some (Anonymization.mk true (some fs)) →
        (∀ r ∈ records, errs r = [] → anonymizeRecord r fs = some (anon r)) →
        ∃ st, processRecords records schema sourceConfig = some st ∧
          st.processedRecords = acceptedSpec records errs anon ∧
          st.validationErrors = rejectedSpec records errs 0) ∧
      ((sourceConfig.anonymization = none ∨
          ∃ a, sourceConfig.anonymization = some a ∧ (a.enabled = false ∨ a.fields = none)) →
        ∃ st, processRecords records schema sourceConfig = some st ∧
          st.processedRecords = records.filter (fun r => (errs r).isEmpty) ∧
          st.validationErrors = rejectedSpec records errs 0) ∧
      List.Pairwise (fun a b => a < b)
        ((rejectedSpec records errs 0).map (fun e => e.recordIndex)) ∧
      (schema = none → records.filter (fun r => (errs r).isEmpty) = records ∧
        rejectedSpec records errs 0 = [])) ∧
    processRecords scenarioRecords (some scenarioSchema) scenarioSource =
      some { processedRecords :=
               [[("id", JVal.str "1"),
                 ("email", JVal.str "anon-21b69d8a9a9881e4@anonymized.local"),
                 ("status", JVal.str "active")]],
             validationErrors :=
               [ValidationError.mk 1
                 ["Field \x27status\x27 value \x27bogus\x27 not in allowed values: active, pending"]],
             anonymizedCount := 1 } := by
  refine ⟨fun records schema sourceConfig errs he => ⟨fun fs anon hcfg ha => ?_, fun hcfg => ?_,
    rejectedSpec_indices records errs 0, fun hs => ?_⟩, rfl⟩
  · have hf : anonymizationFields sourceConfig = some fs := by
      simp [anonymizationFields, hcfg]
    obtain ⟨st1, h1, h2, h3⟩ := recordLoop_spec schema sourceConfig errs anon records 0
      (LoopState.mk [] [] 0) he (fun r hr hnil => by rw [hf]; exact ha r hr hnil)
    exact ⟨st1, h1, by simpa using h2, by simpa using h3⟩
  · have hf : anonymizationFields sourceConfig = none := by
      rcases hcfg with h | ⟨a, h, h2⟩
      · simp [anonymizationFields, h]
      · rcases h2 with h2 | h2
        · simp [anonymizationFields, h, h2]
        · by_cases hen : a.enabled = true
          · simp [anonymizationFields, h, h2, hen]
          · simp [anonymizationFields, h, hen]
    obtain ⟨st1, h1, h2, h3⟩ := recordLoop_spec schema sourceConfig errs id records 0
      (LoopState.mk [] [] 0) he (fun r hr hnil => by rw [hf]; rfl)
    exact ⟨st1, h1, by simpa [acceptedSpec] using h2, by simpa using h3⟩
  · subst hs
    have hall : ∀ r ∈ records, errs r = [] := by
      intro r hr
      have h := he r hr
      simp only [errorsOf, Option.some.injEq] at h
      exact h.symm
    have hfilter : ∀ (rs : List Obj) (start : Nat), (∀ r ∈ rs, errs r = []) →
        rs.filter (fun r => (errs r).isEmpty) = rs ∧ rejectedSpec rs errs start = [] := by
      intro rs
      induction rs with
      | nil => intro start _; exact ⟨rfl, rfl⟩
      | cons r rest ih =>
        intro start hrs
        have hr := hrs r (List.mem_cons_self r rest)
        have hrest := ih (start + 1) (fun q hq => hrs q (List.mem_cons_of_mem r hq))
        have hrej : rejectedSpec rest errs (start + 1) = [] := hrest.2
        simp only [rejectedSpec] at hrej
        simp [rejectedSpec, List.enumFrom_cons, List.filter_cons, hr, hrest.1, hrej]
    exact hfilter records 0 hall

set_option maxRecDepth 100000 in
theorem accepted_rejected_characterization_witness :
    ∃ st, processRecords scenarioRecords (some scenarioSchema) scenarioSource = some st ∧
      st.processedRecords =
        [[("id", JVal.str "1"),
          ("email", JVal.str "anon-21b69d8a9a9881e4@anonymized.local"),
          ("status", JVal.str "active")]] ∧
      st.validationErrors =
        [ValidationError.mk 1
          ["Field \x27status\x27 value \x27bogus\x27 not in allowed values: active, pending"]] :=
  have h := (accepted_rejected_characterization.1 scenarioRecords (some scenarioSchema)
    scenarioSource
    (fun r => (validateAgainstSchema r scenarioSchema).getD [])
    (fun r hr => by
      have hr2 : r = scenarioRecords.headD [] ∨ r = scenarioRecords.getLastD [] := by
        simpa [scenarioRecords] using hr
      rcases hr2 with h | h <;> subst h <;> rfl)).1 ["email"]
    (fun r => (anonymizeRecord r ["email"]).getD [])
    rfl
    (fun r hr _ => by
      have hr2 : r = scenarioRecords.headD [] ∨ r = scenarioRecords.getLastD [] := by
        simpa [scenarioRecords] using hr
      rcases hr2 with h | h <;> subst h <;> rfl)
  by
    obtain ⟨st, h1, h2, h3⟩ := h
    exact ⟨st, h1, by rw [h2]; rfl, by rw [h3]; rfl⟩
/-! ## Theorems: the schema validator -/

theorem requiredErrors_mem (data : Obj) (required : List String) (field : String)
    (hf : field ∈ required) (hmiss : hasProperty data field = false) :
    ("Missing required field: " ++ field) ∈ requiredErrors data required := by
  induction required with
  | nil => simp at hf
  | cons f rest ih =>
    rw [requiredErrors]
    rcases List.mem_cons.mp hf with h | h
    · subst h
      simp [hmiss]
    · by_cases hp : hasProperty data f = true
      · simp [hp, ih h]
      · simp [hp, ih h]

theorem processRecords_single_rejected (r : Obj) (schema : Schema)
    (sourceConfig : SourceConfig) (errors : List String)
    (h : validateAgainstSchema r schema = some errors) (hne : errors ≠ []) :
    processRecords [r] (some schema) sourceConfig =
      some { processedRecords := [],
             validationErrors := [ValidationError.mk 0 errors],
             anonymizedCount := 0 } := by
  have hl : errors.length > 0 := List.length_pos.mpr hne
  simp [processRecords, recordLoop, processRecord, errorsOf, h, hl]

theorem processRecords_single_accepted (r : Obj) (schema : Schema)
    (sourceConfig : SourceConfig)
    (h : validateAgainstSchema r schema = some [])
    (hplain : anonymizationFields sourceConfig = none) :
    processRecords [r] (some schema) sourceConfig =
      some { processedRecords := [r], validationErrors := [], anonymizedCount := 0 } := by
  simp [processRecords, recordLoop, processRecord, errorsOf, h, hplain]

/-- The required-field check works for every name that is not inherited from
`Object.prototype`: whenever the validator returns, an absent required field
has its violation in the list and the record is rejected. -/
theorem missing_required_rejected (data : Obj) (schema : Schema) (required : List String)
    (field : String) (sourceConfig : SourceConfig) (errors : List String)
    (hreq : schema.required = some required) (hf : field ∈ required)
    (habsent : hasOwn data field = false) (hname : field ∉ objectPrototypeKeys)
    (hval : validateAgainstSchema data schema = some errors) :
    ("Missing required field: " ++ field) ∈ errors ∧
    processRecords [data] (some schema) sourceConfig =
      some { processedRecords := [],
             validationErrors := [ValidationError.mk 0 errors],
             anonymizedCount := 0 } := by
  have hmiss : hasProperty data field = false := by
    simp [hasProperty, habsent, hname]
  have hmem : ("Missing required field: " ++ field) ∈ errors := by
    unfold validateAgainstSchema at hval
    rw [hreq] at hval
    cases hp : (match schema.properties with
        | some properties => propertiesErrors data properties
        | none => some []) with
    | none => simp [hp] at hval
    | some es =>
      simp only [hp, Option.some.injEq] at hval
      rw [← hval]
      exact List.mem_append_left _ (requiredErrors_mem data required field hf hmiss)
  exact ⟨hmem, processRecords_single_rejected data schema sourceConfig errors hval
    (List.ne_nil_of_mem hmem)⟩

/-- C2, at the failing input: the record with field `id` only is checked
against a schema requiring `id` and `constructor`; the field `constructor` is
absent from the record, yet no violation is reported and the record is
accepted, because `in` also finds the names inherited from `Object.prototype`. -/
theorem missing_inherited_required_accepted :
    hasOwn idOnlyRecord "constructor" = false ∧
    validateAgainstSchema idOnlyRecord requiresConstructorSchema = some [] ∧
    processRecords [idOnlyRecord] (some requiresConstructorSchema) plainSource =
      some { processedRecords := [idOnlyRecord], validationErrors := [],
             anonymizedCount := 0 } := by
  refine ⟨by decide, by decide, ?_⟩
  exact processRecords_single_accepted idOnlyRecord requiresConstructorSchema plainSource
    (by decide) rfl

theorem typeErrors_nil (key : String) (declared : Option String) (v : JVal)
    (h : matchesDeclaredType declared v) : typeErrors key declared v = [] := by
  unfold matchesDeclaredType at h
  cases declared with
  | none => simp [typeErrors]
  | some t =>
    have h1 := h t rfl
    unfold typeErrors
    by_cases hs : t = "string"
    · subst hs
      have := h1 (by simp)
      cases v <;> simp_all [valueCategory, jsTypeof]
    by_cases hn : t = "number"
    · subst hn
      have := h1 (by simp)
      cases v <;> simp_all [valueCategory, jsTypeof]
    by_cases hb : t = "boolean"
    · subst hb
      have := h1 (by simp)
      cases v <;> simp_all [valueCategory, jsTypeof]
    by_cases ho : t = "object"
    · subst ho
      have := h1 (by simp)
      cases v <;> simp_all [valueCategory, jsTypeof]
    by_cases ha : t = "array"
    · subst ha
      have := h1 (by simp)
      cases v <;> simp_all [valueCategory, jsTypeof, isArray]
    simp [hs, hn, hb, ho, ha]

theorem enumErrors_nil (key : String) (enum : Option (List JVal)) (v : JVal)
    (h : ∀ allowed, enum = some allowed → includes allowed v = true) :
    enumErrors key enum v = some [] := by
  cases enum with
  | none => rfl
  | some allowed => simp [enumErrors, h allowed rfl]

theorem requiredErrors_nil (data : Obj) (required : List String)
    (h : ∀ f ∈ required, hasProperty data f = true) : requiredErrors data required = [] := by
  induction required with
  | nil => rfl
  | cons f rest ih =>
    rw [requiredErrors]
    simp [h f (List.mem_cons_self f rest), ih (fun g hg => h g (List.mem_cons_of_mem f hg))]

theorem propertiesErrors_nil (data : Obj) (props : List (String × PropSchema))
    (h : ∀ e ∈ props, propertyErrors data e = some []) :
    propertiesErrors data props = some [] := by
  induction props with
  | nil => rfl
  | cons e rest ih =>
    rw [propertiesErrors, h e (List.mem_cons_self e rest),
      ih (fun g hg => h g (List.mem_cons_of_mem e hg))]
    rfl

/-- A record satisfying the schema has no violation and is accepted, as long
as the schema declares no property under a name inherited from
`Object.prototype` that the record does not carry itself. -/
theorem valid_record_accepted (data : Obj) (schema : Schema) (sourceConfig : SourceConfig)
    (hvalid : satisfiesSchema data schema)
    (hnames : ∀ props, schema.properties = some props → ∀ e ∈ props,
      e.1 ∈ objectPrototypeKeys → hasOwn data e.1 = true) :
    validateAgainstSchema data schema = some [] ∧
    (anonymizationFields sourceConfig = none →
      processRecords [data] (some schema) sourceConfig =
        some { processedRecords := [data], validationErrors := [],
               anonymizedCount := 0 }) := by
  have hv : validateAgainstSchema data schema = some [] := by
    unfold validateAgainstSchema
    have hr : (match schema.required with
        | some required => requiredErrors data required
        | none => []) = [] := by
      cases hreq : schema.required with
      | none => rfl
      | some required =>
        exact requiredErrors_nil data required (fun f hf => by
          simp [hasProperty, hvalid.1 required hreq f hf])
    have hp : (match schema.properties with
        | some properties => propertiesErrors data properties
        | none => some []) = some [] := by
      cases hprops : schema.properties with
      | none => rfl
      | some props =>
        refine propertiesErrors_nil data props (fun e he => ?_)
        unfold propertyErrors
        by_cases hin : hasProperty data e.1 = true
        · have hown : hasOwn data e.1 = true := by
            by_cases ho : hasOwn data e.1 = true
            · exact ho
            · have hk : e.1 ∈ objectPrototypeKeys := by
                simpa [hasProperty, ho] using hin
              exact hnames props hprops e he hk
          obtain ⟨ht, hen⟩ := hvalid.2 props hprops e he hown
          simp [hin, typeErrors_nil e.1 e.2.type _ ht, enumErrors_nil e.1 e.2.enum _ hen]
        · simp [hin]
    rw [hr, hp]
    rfl
  exact ⟨hv, processRecords_single_accepted data schema sourceConfig hv⟩

/-- C3, at the failing input: the record with field `id` only satisfies the
schema requiring `id` and declaring the optional string property `constructor`
(the property is not present on the record), yet the validator reports a type
violation for the inherited `constructor` and the record is rejected. -/
theorem valid_record_rejected_for_inherited_name :
    satisfiesSchema idOnlyRecord declaresConstructorSchema ∧
    validateAgainstSchema idOnlyRecord declaresConstructorSchema =
      some ["Field \x27constructor\x27 should be string, got function"] ∧
    processRecords [idOnlyRecord] (some declaresConstructorSchema) plainSource =
      some { processedRecords := [],
             validationErrors := [ValidationError.mk 0
               ["Field \x27constructor\x27 should be string, got function"]],
             anonymizedCount := 0 } := by
  refine ⟨⟨?_, ?_⟩, by decide, ?_⟩
  · intro required hreq f hf
    have hr : required = ["id"] := by
      simpa [declaresConstructorSchema] using hreq.symm
    subst hr
    have hf2 : f = "id" := by simpa using hf
    subst hf2
    decide
  · intro props hprops e he hown
    have hp : props = [("constructor", { type := some "string", enum := none })] := by
      simpa [declaresConstructorSchema] using hprops.symm
    subst hp
    have he2 : e = ("constructor", { type := some "string", enum := none }) := by
      simpa using he
    subst he2
    exact absurd hown (by decide)
  · exact processRecords_single_rejected idOnlyRecord declaresConstructorSchema plainSource
      _ (by decide) (by decide)

theorem typeErrors_not_enumText (key : String) (declared : Option String) (v : JVal)
    (text joined : String) : enumText key text joined ∉ typeErrors key declared v := by
  have hne : ∀ (a b : String),
      "Field \x27" ++ key ++ "\x27 value \x27" ++ a ≠
        "Field \x27" ++ key ++ "\x27 should be " ++ b := by
    intro a b h
    have h2 := congrArg String.data h
    simp only [String.data_append, List.append_assoc, List.append_cancel_left_eq] at h2
    simp at h2
  have hmsg : ∀ (t : String), enumText key text joined ≠
      "Field \x27" ++ key ++ ("\x27 should be " ++ t) := by
    intro t h
    unfold enumText at h
    refine hne (text ++ "\x27 not in allowed values: " ++ joined) t ?_
    simpa [String.append_assoc] using h
  unfold typeErrors
  split_ifs <;> simp only [List.mem_singleton, List.not_mem_nil, not_false_eq_true]
  · exact fun h => hmsg ("string, got " ++ jsTypeof v) (by simpa [String.append_assoc] using h)
  · exact fun h => hmsg ("number, got " ++ jsTypeof v) (by simpa [String.append_assoc] using h)
  · exact fun h => hmsg ("boolean, got " ++ jsTypeof v) (by simpa [String.append_assoc] using h)
  · exact fun h => hmsg ("object, got " ++ jsTypeof v) (by simpa [String.append_assoc] using h)
  · exact fun h => hmsg ("array, got " ++ jsTypeof v) (by simpa [String.append_assoc] using h)

theorem propertiesErrors_split (data : Obj) (e : String × PropSchema)
    (after : List (String × PropSchema)) :
    ∀ (before : List (String × PropSchema)) (errors : List String),
      propertiesErrors data (before ++ e :: after) = some errors →
      ∃ eb ep ea, propertiesErrors data before = some eb ∧ propertyErrors data e = some ep ∧
        propertiesErrors data after = some ea ∧ errors = eb ++ ep ++ ea := by
  intro before
  induction before with
  | nil =>
    intro errors h
    simp only [List.nil_append, propertiesErrors] at h
    cases hp : propertyErrors data e with
    | none => simp [hp] at h
    | some ep =>
      cases ha : propertiesErrors data after with
      | none => simp [hp, ha] at h
      | some ea =>
        simp only [hp, ha, Option.some.injEq] at h
        exact ⟨[], ep, ea, rfl, rfl, rfl, by simp [h]⟩
  | cons b rest ih =>
    intro errors h
    simp only [List.cons_append, propertiesErrors] at h
    cases hb : propertyErrors data b with
    | none => simp [hb] at h
    | some e1 =>
      cases hr : propertiesErrors data (rest ++ e :: after) with
      | none =>
        have hr2 : propertiesErrors data (rest.append (e :: after)) = none := hr
        simp [hb, hr, hr2] at h
      | some er =>
        have hr2 : propertiesErrors data (rest.append (e :: after)) = some er := hr
        simp only [hb, hr2, Option.some.injEq] at h
        obtain ⟨eb, ep, ea, h1, h2, h3, h4⟩ := ih er hr
        refine ⟨e1 ++ eb, ep, ea, ?_, h2, h3, ?_⟩
        · simp [propertiesErrors, hb, h1]
        · rw [← h, h4]
          simp

theorem validateAgainstSchema_split (data : Obj) (schema : Schema)
    (before after : List (String × PropSchema)) (e : String × PropSchema)
    (errors : List String)
    (hprops : schema.properties = some (before ++ e :: after))
    (h : validateAgainstSchema data schema = some errors) :
    ∃ eb ep ea, propertiesErrors data before = some eb ∧ propertyErrors data e = some ep ∧
      propertiesErrors data after = some ea ∧
      errors = (match schema.required with
        | some required => requiredErrors data required
        | none => []) ++ eb ++ ep ++ ea := by
  unfold validateAgainstSchema at h
  rw [hprops] at h
  cases hp : propertiesErrors data (before ++ e :: after) with
  | none => simp [hp] at h
  | some es =>
    simp only [hp, Option.some.injEq] at h
    obtain ⟨eb, ep, ea, h1, h2, h3, h4⟩ := propertiesErrors_split data e after before es hp
    exact ⟨eb, ep, ea, h1, h2, h3, by rw [← h, h4]; simp⟩

theorem propertyErrors_enum (data : Obj) (key : String) (ps : PropSchema)
    (allowed : List JVal) (hown : hasOwn data key = true) (henum : ps.enum = some allowed) :
    (includes allowed (getProperty data key) = true →
      propertyErrors data (key, ps) = some (typeErrors key ps.type (getProperty data key))) ∧
    (includes allowed (getProperty data key) = false →
      ∀ text joined, toStr (getProperty data key) = some text →
        joinWith ", " allowed = some joined →
        propertyErrors data (key, ps) =
          some (typeErrors key ps.type (getProperty data key) ++ [enumText key text joined])) ∧
    (includes allowed (getProperty data key) = false →
      (toStr (getProperty data key) = none ∨ joinWith ", " allowed = none) →
      propertyErrors data (key, ps) = none) := by
  have hp : hasProperty data key = true := by simp [hasProperty, hown]
  refine ⟨fun hin => ?_, fun hnot text joined ht hj => ?_, fun hnot hthrow => ?_⟩
  · simp [propertyErrors, hp, enumErrors, henum, hin]
  · simp [propertyErrors, hp, enumErrors, henum, hnot, enumMessage, ht, hj]
  · rcases hthrow with h | h
    · simp [propertyErrors, hp, enumErrors, henum, hnot, enumMessage, h]
    · cases ht : toStr (getProperty data key) with
      | none => simp [propertyErrors, hp, enumErrors, henum, hnot, enumMessage, ht]
      | some text => simp [propertyErrors, hp, enumErrors, henum, hnot, enumMessage, ht, h]

/-- C10, counterexample to the claim as stated: the status of the record is an
object with an own property toString; it is present, the schema declares an
enum for it and the value is not a member, yet no violation is emitted:
building the text throws and `validateAgainstSchema` returns no list. -/
theorem enum_violation_can_throw :
    hasOwn toStringStatusRecord "status" = true ∧
    includes [JVal.str "active", JVal.str "pending"]
      (getProperty toStringStatusRecord "status") = false ∧
    toStr (getProperty toStringStatusRecord "status") = none ∧
    validateAgainstSchema toStringStatusRecord scenarioSchema = none := by
  refine ⟨by decide, rfl, rfl, rfl⟩

/-- C10, amended: for a schema property present on the record that declares an
enum list, the check of that property pushes its type violation if any and
then the enum violation, made of the key, `String(value)` and the enum members
joined by a comma and a blank, if and only if the value is not a member of the
enum; these messages stand in the returned list at the place of the property,
after those of the required fields and of the earlier properties. When the
value is not a member and `String(value)` or the join throws, the validator
throws and returns no list. For the records of the scenario the returned
lists are the empty list and the one enum violation. -/
theorem enum_violation_iff_not_member :
    (∀ (data : Obj) (schema : Schema) (before after : List (String × PropSchema))
        (key : String) (ps : PropSchema) (allowed : List JVal),
      schema.properties = some (before ++ (key, ps) :: after) → hasOwn data key = true →
      ps.enum = some allowed →
      (∀ ep text joined, propertyErrors data (key, ps) = some ep →
        toStr (getProperty data key) = some text → joinWith ", " allowed = some joined →
        (enumText key text joined ∈ ep ↔ includes allowed (getProperty data key) = false)) ∧
      (includes allowed (getProperty data key) = true →
        propertyErrors data (key, ps) = some (typeErrors key ps.type (getProperty data key))) ∧
      (includes allowed (getProperty data key) = false →
        ∀ text joined, toStr (getProperty data key) = some text →
          joinWith ", " allowed = some joined →
          propertyErrors data (key, ps) =
            some (typeErrors key ps.type (getProperty data key) ++
              [enumText key text joined])) ∧
      (includes allowed (getProperty data key) = false →
        (toStr (getProperty data key) = none ∨ joinWith ", " allowed = none) →
        validateAgainstSchema data schema = none) ∧
      (∀ errors, validateAgainstSchema data schema = some errors →
        ∃ eb ep ea, propertiesErrors data before = some eb ∧
          propertyErrors data (key, ps) = some ep ∧
          propertiesErrors data after = some ea ∧
          errors = (match schema.required with
            | some required => requiredErrors data required
            | none => []) ++ eb ++ ep ++ ea)) ∧
    validateAgainstSchema [("id", JVal.str "1"), ("email", JVal.str "a@x.com"),
        ("status", JVal.str "active")] scenarioSchema = some [] ∧
    validateAgainstSchema [("id", JVal.str "2"), ("status", JVal.str "bogus")] scenarioSchema =
      some ["Field \x27status\x27 value \x27bogus\x27 not in allowed values: active, pending"] := by
  refine ⟨fun data schema before after key ps allowed hprops hown henum => ?_,
    by decide, by decide⟩
  obtain ⟨hA, hB, hC⟩ := propertyErrors_enum data key ps allowed hown henum
  refine ⟨fun ep text joined hep ht hj => ?_, hA, hB, fun hnot hthrow => ?_,
    fun errors h => validateAgainstSchema_split data schema before after (key, ps) errors hprops h⟩
  · cases hin : includes allowed (getProperty data key) with
    | true =>
      rw [hA hin, Option.some.injEq] at hep
      rw [← hep]
      simp only [Bool.true_eq_false, iff_false]
      exact typeErrors_not_enumText key ps.type _ text joined
    | false =>
      rw [hB hin text joined ht hj, Option.some.injEq] at hep
      rw [← hep]
      simp
  · cases hv : validateAgainstSchema data schema with
    | none => rfl
    | some errors =>
      obtain ⟨_, ep, _, _, h2, _, _⟩ :=
        validateAgainstSchema_split data schema before after (key, ps) errors hprops hv
      rw [hC hnot hthrow] at h2
      exact absurd h2 (by simp)

theorem enum_violation_iff_not_member_witness :
    propertyErrors [("id", JVal.str "1"), ("email", JVal.str "a@x.com"),
        ("status", JVal.str "active")]
      ("status", { type := none, enum := some [JVal.str "active", JVal.str "pending"] }) =
      some [] ∧
    propertyErrors [("id", JVal.str "2"), ("status", JVal.str "bogus")]
      ("status", { type := none, enum := some [JVal.str "active", JVal.str "pending"] }) =
      some [enumText "status" "bogus" "active, pending"] :=
  ⟨(enum_violation_iff_not_member.1
      [("id", JVal.str "1"), ("email", JVal.str "a@x.com"), ("status", JVal.str "active")]
      scenarioSchema [] []
      "status" { type := none, enum := some [JVal.str "active", JVal.str "pending"] }
      [JVal.str "active", JVal.str "pending"] rfl (by decide) rfl).2.1 (by decide),
   (enum_violation_iff_not_member.1 [("id", JVal.str "2"), ("status", JVal.str "bogus")]
      scenarioSchema [] []
      "status" { type := none, enum := some [JVal.str "active", JVal.str "pending"] }
      [JVal.str "active", JVal.str "pending"] rfl (by decide) rfl).2.2.1 (by decide)
      "bogus" "active, pending" rfl rfl⟩
/-! ## Theorems: the field anonymizer -/

set_option maxRecDepth 100000 in
/-- The embedded digest agrees with the standard SHA-256 test vector for "abc". -/
theorem sha256Hex_abc :
    sha256Hex "abc" =
      "ba7816bf8f01cfea414140de5dae2223b00361a396177a9cb410ff61f20015ad".toList := by
  decide

theorem isLowerHex_hexDigit (n : Nat) : isLowerHex (hexDigit n) = true := by
  have h : ∀ m : Fin 16, isLowerHex ("0123456789abcdef".toList.getD m.val (Char.ofNat 48)) = true := by
    decide
  exact h ⟨n % 16, Nat.mod_lt n (by norm_num)⟩

theorem hexWord_length (w : Nat) : (hexWord w).length = 8 := by
  simp [hexWord]

theorem hexWord_hex (w : Nat) : ∀ c ∈ hexWord w, isLowerHex c = true := by
  intro c hc
  simp only [hexWord, List.mem_map] at hc
  obtain ⟨i, _, rfl⟩ := hc
  exact isLowerHex_hexDigit _

theorem sha256Hex_length (s : String) : (sha256Hex s).length = 64 := by
  simp [sha256Hex, hexDigest, hexWord_length]

theorem sha256Hex_hex (s : String) : ∀ c ∈ sha256Hex s, isLowerHex c = true := by
  intro c hc
  simp only [sha256Hex, hexDigest, List.mem_append] at hc
  rcases hc with ((((((h | h) | h) | h) | h) | h) | h) | h <;> exact hexWord_hex _ c h

theorem fingerprint_length (strValue : String) (fieldName : String) :
    (fingerprint strValue fieldName).length = 16 := by
  simp [fingerprint, sha256Hex_length]

theorem fingerprint_hex (strValue : String) (fieldName : String) :
    ∀ c ∈ fingerprint strValue fieldName, isLowerHex c = true :=
  fun c hc => sha256Hex_hex _ c (List.mem_of_mem_take hc)

theorem matchesAnonEmail_of (fp : List Char) (hlen : fp.length = 16)
    (hhex : ∀ c ∈ fp, isLowerHex c = true) :
    matchesAnonEmail ("anon-" ++ String.mk fp ++ "@anonymized.local") = true := by
  have hd : ("anon-" ++ String.mk fp ++ "@anonymized.local").toList =
      "anon-".toList ++ (fp ++ "@anonymized.local".toList) := by
    simp [String.toList, String.data_append]
  unfold matchesAnonEmail
  rw [hd]
  have h5 : ("anon-".toList ++ (fp ++ "@anonymized.local".toList)).drop 5 =
      fp ++ "@anonymized.local".toList := List.drop_left' rfl
  have h5t : ("anon-".toList ++ (fp ++ "@anonymized.local".toList)).take 5 = "anon-".toList :=
    List.take_left' rfl
  rw [h5, h5t, List.take_left' hlen, List.drop_left' hlen]
  simp only [beq_self_eq_true, Bool.true_and, Bool.and_true, List.length_append, hlen]
  refine Bool.and_eq_true_iff.mpr ⟨by decide, List.all_eq_true.mpr hhex⟩

theorem matchesAnonPhone_of (fp : List Char) (hlen : fp.length = 4)
    (hhex : ∀ c ∈ fp, isLowerHex c = true) :
    matchesAnonPhone ("+1-XXX-XXX-" ++ String.mk fp) = true := by
  have hd : ("+1-XXX-XXX-" ++ String.mk fp).toList = "+1-XXX-XXX-".toList ++ fp := by
    simp [String.toList, String.data_append]
  unfold matchesAnonPhone
  have h11 : ("+1-XXX-XXX-".toList ++ fp).drop 11 = fp := List.drop_left' rfl
  have h11t : ("+1-XXX-XXX-".toList ++ fp).take 11 = "+1-XXX-XXX-".toList := List.take_left' rfl
  rw [hd, h11, h11t]
  simp only [beq_self_eq_true, Bool.true_and, hlen]
  exact List.all_eq_true.mpr hhex

/-- C8, counterexample to the claim as stated: an object with an own property
toString is a non-null value, and `String(value)` throws for it, so
`anonymizeField` returns no string. -/
theorem anonymizeField_can_throw :
    isNullish (JVal.obj [("toString", JVal.num "1")]) = false ∧
    toStr (JVal.obj [("toString", JVal.num "1")]) = none ∧
    (∀ fieldName, anonymizeField (JVal.obj [("toString", JVal.num "1")]) fieldName = none) := by
  refine ⟨rfl, rfl, fun _ => rfl⟩

/-- C8, amended: for a value that is neither null nor undefined and has the
string form strValue under `String`, `anonymizeField` returns a string built
from the fingerprint, the first 16 lowercase hexadecimal digits of the SHA-256
digest of the salt, strValue and the field name: the anon- form for email
(matching its pattern), the +1-XXX-XXX- form with 4 digits for phone (matching
its pattern), the REDACTED form with 8 digits for address and the ANONYMIZED
form with 8 digits for every other field name. Every string, number and
boolean, and every object without an own property toString, has a string
form; when `String(value)` throws, `anonymizeField` throws. -/
theorem anonymizeField_format (value : JVal) (fieldName : String)
    (hvalue : isNullish value = false) :
    (toStr value = none → anonymizeField value fieldName = none) ∧
    (∀ strValue, toStr value = some strValue →
      fingerprint strValue fieldName =
        (sha256Hex ("ANON_SALT_" ++ fieldName ++ "_v1" ++ strValue ++ fieldName)).take 16 ∧
      (fingerprint strValue fieldName).length = 16 ∧
      (∀ c ∈ fingerprint strValue fieldName, isLowerHex c = true) ∧
      (fieldName = "email" →
        anonymizeField value fieldName = some (JVal.str
          ("anon-" ++ String.mk (fingerprint strValue fieldName) ++ "@anonymized.local")) ∧
        matchesAnonEmail
          ("anon-" ++ String.mk (fingerprint strValue fieldName) ++ "@anonymized.local") = true) ∧
      (fieldName = "phone" →
        anonymizeField value fieldName = some (JVal.str
          ("+1-XXX-XXX-" ++ String.mk ((fingerprint strValue fieldName).take 4))) ∧
        matchesAnonPhone
          ("+1-XXX-XXX-" ++ String.mk ((fingerprint strValue fieldName).take 4)) = true) ∧
      (fieldName = "address" →
        anonymizeField value fieldName = some (JVal.str
          ("[REDACTED-" ++ String.mk ((fingerprint strValue fieldName).take 8) ++ "]"))) ∧
      (fieldName ≠ "email" → fieldName ≠ "phone" → fieldName ≠ "address" →
        anonymizeField value fieldName = some (JVal.str
          ("[ANONYMIZED-" ++ String.mk ((fingerprint strValue fieldName).take 8) ++ "]")))) ∧
    (∀ s, toStr (JVal.str s) = some s) ∧
    (∀ text, toStr (JVal.num text) = some text) ∧
    (∀ b, toStr (JVal.bool b) = some (if b then "true" else "false")) ∧
    (∀ fields : Obj, fields.lookup "toString" = none →
      toStr (JVal.obj fields) = some "[object Object]") := by
  refine ⟨fun hnone => by simp [anonymizeField, hvalue, hnone],
    fun strValue hstr => ⟨rfl, fingerprint_length strValue fieldName,
      fingerprint_hex strValue fieldName,
      fun h => ⟨?_, ?_⟩, fun h => ⟨?_, ?_⟩, fun h => ?_, fun h1 h2 h3 => ?_⟩,
    fun _ => rfl, fun _ => rfl, fun b => by cases b <;> rfl,
    fun fields h => by simp [toStr, h]⟩
  · simp [anonymizeField, hvalue, hstr, placeholder, h]
  · exact matchesAnonEmail_of _ (fingerprint_length strValue fieldName)
      (fingerprint_hex strValue fieldName)
  · subst h
    simp [anonymizeField, hvalue, hstr, placeholder]
  · refine matchesAnonPhone_of _ ?_ (fun c hc => fingerprint_hex strValue fieldName c
      (List.mem_of_mem_take hc))
    simp [fingerprint_length]
  · subst h
    simp [anonymizeField, hvalue, hstr, placeholder]
  · simp [anonymizeField, hvalue, hstr, placeholder, h1, h2, h3]

set_option maxRecDepth 100000 in
theorem anonymizeField_format_witness :
    isNullish (JVal.str "a@x.com") = false ∧
    anonymizeField (JVal.str "a@x.com") "email" =
      some (JVal.str "anon-21b69d8a9a9881e4@anonymized.local") ∧
    matchesAnonEmail "anon-21b69d8a9a9881e4@anonymized.local" = true ∧
    anonymizeField (JVal.num "1e+21") "email" =
      some (JVal.str "anon-a9c22fd4adb04242@anonymized.local") := by
  have h := ((anonymizeField_format (JVal.str "a@x.com") "email" rfl).2.1 "a@x.com" rfl).2.2.2.1
    rfl
  have hfp : fingerprint "a@x.com" "email" = "21b69d8a9a9881e4".toList := by decide
  rw [hfp] at h
  have h2 := ((anonymizeField_format (JVal.num "1e+21") "email" rfl).2.1 "1e+21"
    rfl).2.2.2.1 rfl
  have hfp2 : fingerprint "1e+21" "email" = "a9c22fd4adb04242".toList := by decide
  rw [hfp2] at h2
  exact ⟨rfl, h.1, h.2, h2.1⟩

theorem replaceOwn_keys (k : String) (v : JVal) (o : Obj) :
    (replaceOwn k v o).map Prod.fst = o.map Prod.fst := by
  induction o with
  | nil => rfl
  | cons e rest ih =>
    obtain ⟨k1, v1⟩ := e
    rw [replaceOwn]
    by_cases h : (k1 == k) = true
    · simp [h]
    · simp [h, ih]

theorem lookup_replaceOwn_ne (k k2 : String) (v : JVal) (o : Obj) (hne : k2 ≠ k) :
    (replaceOwn k v o).lookup k2 = o.lookup k2 := by
  induction o with
  | nil => rfl
  | cons e rest ih =>
    obtain ⟨k1, v1⟩ := e
    rw [replaceOwn]
    by_cases h : (k1 == k) = true
    · have hk : k1 = k := by simpa using h
      have h2 : (k2 == k1) = false := by simp [hk, hne]
      simp [h, List.lookup, h2]
    · by_cases h2 : (k2 == k1) = true
      · simp [h, List.lookup, h2]
      · simp [h, List.lookup, h2, ih]

theorem lookup_replaceOwn_self (k : String) (v : JVal) (o : Obj) (hown : hasOwn o k = true) :
    (replaceOwn k v o).lookup k = some v := by
  induction o with
  | nil => simp [hasOwn] at hown
  | cons e rest ih =>
    obtain ⟨k1, v1⟩ := e
    rw [replaceOwn]
    by_cases h : (k1 == k) = true
    · have hk : k1 = k := by simpa using h
      simp [h, List.lookup, hk]
    · have hk : ¬ k1 = k := by simpa using h
      have h2 : (k == k1) = false := by simpa using fun h3 => hk h3.symm
      have hrest : hasOwn rest k = true := by
        simpa [hasOwn, hk] using hown
      simp [h, List.lookup, h2, ih hrest]

theorem hasOwn_eq_of_keys (o1 o2 : Obj) (k : String)
    (h : o1.map Prod.fst = o2.map Prod.fst) : hasOwn o1 k = hasOwn o2 k := by
  have e : ∀ o : Obj, hasOwn o k = (o.map Prod.fst).any (fun x => x == k) := by
    intro o
    unfold hasOwn
    induction o with
    | nil => rfl
    | cons e rest ih => simp [List.any_cons, ih]
  rw [e o1, e o2, h]

theorem getProperty_eq_of_lookup (o1 o2 : Obj) (k : String)
    (h : o1.lookup k = o2.lookup k) : getProperty o1 k = getProperty o2 k := by
  unfold getProperty
  rw [h]

theorem anonymizeStep_own (o o1 : Obj) (f : String) (hown : hasOwn o f = true)
    (h : anonymizeStep o f = some o1) :
    ∃ v, anonymizeField (getProperty o f) f = some v ∧ o1 = replaceOwn f v o := by
  unfold anonymizeStep at h
  have hp : hasProperty o f = true := by simp [hasProperty, hown]
  simp only [hp, if_true] at h
  cases hv : anonymizeField (getProperty o f) f with
  | none => simp [hv] at h
  | some v =>
    simp only [hv, Option.some.injEq, setProperty, hown, if_true] at h
    exact ⟨v, rfl, h.symm⟩

theorem anonymizeStep_absent (o : Obj) (f : String) (hown : hasOwn o f = false)
    (hname : f ∉ objectPrototypeKeys) : anonymizeStep o f = some o := by
  simp [anonymizeStep, hasProperty, hown, hname]

theorem anonymizeStep_frame (o o1 : Obj) (f : String)
    (hname : f ∈ objectPrototypeKeys → hasOwn o f = true)
    (h : anonymizeStep o f = some o1) :
    o1.map Prod.fst = o.map Prod.fst ∧ (∀ k, k ≠ f → o1.lookup k = o.lookup k) := by
  by_cases hown : hasOwn o f = true
  · obtain ⟨v, _, rfl⟩ := anonymizeStep_own o o1 f hown h
    exact ⟨replaceOwn_keys f v o, fun k hk => lookup_replaceOwn_ne f k v o hk⟩
  · have hown2 : hasOwn o f = false := by simpa using hown
    rw [anonymizeStep_absent o f hown2 (fun hp => hown (hname hp)), Option.some.injEq] at h
    subst h
    exact ⟨rfl, fun _ _ => rfl⟩

theorem anonymizeRecord_cons (record : Obj) (f : String) (fs : List String) (out : Obj)
    (h : anonymizeRecord record (f :: fs) = some out) :
    ∃ o1, anonymizeStep record f = some o1 ∧ anonymizeRecord o1 fs = some out := by
  rw [anonymizeRecord] at h
  cases hs : anonymizeStep record f with
  | none => simp [hs] at h
  | some o1 =>
    simp only [hs] at h
    exact ⟨o1, rfl, h⟩

theorem anonymizeRecord_frame (fields : List String) :
    ∀ (record out : Obj),
      (∀ f ∈ fields, f ∈ objectPrototypeKeys → hasOwn record f = true) →
      anonymizeRecord record fields = some out →
      out.map Prod.fst = record.map Prod.fst ∧
      (∀ k, k ∉ fields → out.lookup k = record.lookup k) := by
  induction fields with
  | nil =>
    intro record out _ h
    simp only [anonymizeRecord, Option.some.injEq] at h
    subst h
    exact ⟨rfl, fun _ _ => rfl⟩
  | cons f fs ih =>
    intro record out hnames h
    obtain ⟨o1, hs, hr⟩ := anonymizeRecord_cons record f fs out h
    have hf := hnames f (List.mem_cons_self f fs)
    obtain ⟨hkeys, hlook⟩ := anonymizeStep_frame record o1 f hf hs
    have hrest : ∀ g ∈ fs, g ∈ objectPrototypeKeys → hasOwn o1 g = true := by
      intro g hg hp
      rw [hasOwn_eq_of_keys _ record g hkeys]
      exact hnames g (List.mem_cons_of_mem f hg) hp
    obtain ⟨h1, h2⟩ := ih o1 out hrest hr
    refine ⟨h1.trans hkeys, fun k hk => ?_⟩
    have hkf : k ≠ f := fun e => hk (e ▸ List.mem_cons_self f fs)
    have hkfs : k ∉ fs := fun e => hk (List.mem_cons_of_mem f e)
    rw [h2 k hkfs, hlook k hkf]

theorem anonymizeRecord_times (fields : List String) :
    ∀ (record out : Obj),
      (∀ f ∈ fields, f ∈ objectPrototypeKeys → hasOwn record f = true) →
      anonymizeRecord record fields = some out →
      ∀ g, hasOwn record g = true →
        anonymizeTimes g (fields.count g) (getProperty record g) = some (getProperty out g) := by
  induction fields with
  | nil =>
    intro record out _ h g _
    simp only [anonymizeRecord, Option.some.injEq] at h
    subst h
    rfl
  | cons f fs ih =>
    intro record out hnames h g hg
    obtain ⟨o1, hs, hr⟩ := anonymizeRecord_cons record f fs out h
    have hf := hnames f (List.mem_cons_self f fs)
    obtain ⟨hkeys, hlook⟩ := anonymizeStep_frame record o1 f hf hs
    have hrest : ∀ q ∈ fs, q ∈ objectPrototypeKeys → hasOwn o1 q = true := by
      intro q hq hp
      rw [hasOwn_eq_of_keys _ record q hkeys]
      exact hnames q (List.mem_cons_of_mem f hq) hp
    have hg1 : hasOwn o1 g = true := by
      rw [hasOwn_eq_of_keys _ record g hkeys]; exact hg
    have hih := ih o1 out hrest hr g hg1
    by_cases hgf : g = f
    · subst hgf
      obtain ⟨v, hv, ho1⟩ := anonymizeStep_own record o1 g hg hs
      have hval : getProperty o1 g = v := by
        unfold getProperty
        rw [ho1, lookup_replaceOwn_self g v record hg]
      rw [hval] at hih
      rw [List.count_cons_self, anonymizeTimes, hv]
      exact hih
    · have hne : (f == g) = false := by
        simpa using fun e => hgf e.symm
      rw [List.count_cons, hne]
      simp only [Bool.false_eq_true, if_false, Nat.add_zero]
      rw [← getProperty_eq_of_lookup o1 record g (hlook g hgf)]
      exact hih

theorem anonymizeField_result (v w : JVal) (f : String) (h : anonymizeField v f = some w) :
    isNullish w = true ∨ toStr w ≠ none := by
  unfold anonymizeField at h
  by_cases hn : isNullish v = true
  · simp only [hn, if_true, Option.some.injEq] at h
    subst h
    exact Or.inl hn
  · simp only [hn, if_false] at h
    cases hs : toStr v with
    | none => simp [hs] at h
    | some s =>
      simp only [hs, Bool.false_eq_true, if_false, Option.some.injEq] at h
      subst h
      exact Or.inr (by simp [toStr])

theorem anonymizeField_defined (v : JVal) (f : String)
    (h : isNullish v = true ∨ toStr v ≠ none) : ∃ w, anonymizeField v f = some w := by
  unfold anonymizeField
  by_cases hn : isNullish v = true
  · exact ⟨v, by simp [hn]⟩
  · rcases h with h | h
    · exact absurd h hn
    · cases hs : toStr v with
      | none => exact absurd hs h
      | some s => exact ⟨JVal.str (placeholder s f), by simp [hn]⟩

theorem anonymizeRecord_defined (fields : List String) :
    ∀ (record : Obj),
      (∀ f ∈ fields, f ∈ objectPrototypeKeys → hasOwn record f = true) →
      (∀ f ∈ fields, hasOwn record f = true →
        isNullish (getProperty record f) = true ∨ toStr (getProperty record f) ≠ none) →
      ∃ out, anonymizeRecord record fields = some out := by
  induction fields with
  | nil => exact fun record _ _ => ⟨record, rfl⟩
  | cons f fs ih =>
    intro record hnames hvals
    have hf := hnames f (List.mem_cons_self f fs)
    have hstep : ∃ o1, anonymizeStep record f = some o1 := by
      by_cases hown : hasOwn record f = true
      · obtain ⟨w, hw⟩ := anonymizeField_defined (getProperty record f) f
          (hvals f (List.mem_cons_self f fs) hown)
        have hp : hasProperty record f = true := by simp [hasProperty, hown]
        exact ⟨setProperty record f w, by simp [anonymizeStep, hp, hw]⟩
      · have hown2 : hasOwn record f = false := by simpa using hown
        exact ⟨record, anonymizeStep_absent record f hown2 (fun hp => hown (hf hp))⟩
    obtain ⟨o1, hs⟩ := hstep
    obtain ⟨hkeys, hlook⟩ := anonymizeStep_frame record o1 f hf hs
    have hrest : ∀ q ∈ fs, q ∈ objectPrototypeKeys → hasOwn o1 q = true := by
      intro q hq hp
      rw [hasOwn_eq_of_keys _ record q hkeys]
      exact hnames q (List.mem_cons_of_mem f hq) hp
    have hvals1 : ∀ q ∈ fs, hasOwn o1 q = true →
        isNullish (getProperty o1 q) = true ∨ toStr (getProperty o1 q) ≠ none := by
      intro q hq hown1
      have hownr : hasOwn record q = true := by
        rw [← hasOwn_eq_of_keys _ record q hkeys]; exact hown1
      by_cases hqf : q = f
      · subst hqf
        obtain ⟨v, hv, ho1⟩ := anonymizeStep_own record o1 q hownr hs
        have hval : getProperty o1 q = v := by
          unfold getProperty
          rw [ho1, lookup_replaceOwn_self q v record hownr]
        rw [hval]
        exact anonymizeField_result _ v q hv
      · rw [getProperty_eq_of_lookup o1 record q (hlook q hqf)]
        exact hvals q (List.mem_cons_of_mem f hq) hownr
    obtain ⟨out, hout⟩ := ih o1 hrest hvals1
    exact ⟨out, by rw [anonymizeRecord, hs]; exact hout⟩

set_option maxRecDepth 100000 in
/-- C9, counterexamples to the claim as stated: with the field list
email, email the record holding email a@x.com ends with the placeholder of the
placeholder, not anonymizeField of the original value; for the record whose
email is an object with an own property toString no record is returned; with
the field list constructor the record with field id only gains the field
constructor. -/
theorem anonymizeRecord_claim_fails :
    (hasOwn [("email", JVal.str "a@x.com")] "email" = true ∧
      anonymizeRecord [("email", JVal.str "a@x.com")] ["email", "email"] =
        some [("email", JVal.str "anon-61a4f2cc0b1541a0@anonymized.local")] ∧
      anonymizeField (getProperty [("email", JVal.str "a@x.com")] "email") "email" =
        some (JVal.str "anon-21b69d8a9a9881e4@anonymized.local") ∧
      "anon-61a4f2cc0b1541a0@anonymized.local" ≠ "anon-21b69d8a9a9881e4@anonymized.local") ∧
    anonymizeRecord toStringRecord ["email"] = none ∧
    (anonymizeRecord idOnlyRecord ["constructor"]).map (fun o => o.map Prod.fst) =
      some ["id", "constructor"] := by
  refine ⟨⟨by decide, rfl, rfl, by decide⟩, rfl, by decide⟩

/-- C9, amended: for a field list in which every name inherited from
Object.prototype is a field of the record, `anonymizeRecord` returns a record
whenever every listed field present on the record is null or has a string
form; the record returned has the same field names in the same order; every
field not in the list keeps its value; every field of the record holds the
result of applying anonymizeField as many times as the name occurs in the
list, each time to the value before, so that a field listed once holds
anonymizeField of the original value and the field name; anonymizeField
leaves null as it is. The result is a new value: the record passed in is not
changed. -/
theorem anonymizeRecord_effect (record : Obj) (fields : List String)
    (hnames : ∀ f ∈ fields, f ∈ objectPrototypeKeys → hasOwn record f = true) :
    ((∀ f ∈ fields, hasOwn record f = true →
        isNullish (getProperty record f) = true ∨ toStr (getProperty record f) ≠ none) →
      ∃ out, anonymizeRecord record fields = some out) ∧
    (∀ out, anonymizeRecord record fields = some out →
      out.map Prod.fst = record.map Prod.fst ∧
      (∀ k, k ∉ fields → out.lookup k = record.lookup k) ∧
      (∀ f, hasOwn record f = true →
        anonymizeTimes f (fields.count f) (getProperty record f) =
          some (getProperty out f)) ∧
      (∀ f, fields.count f = 1 → hasOwn record f = true →
        anonymizeField (getProperty record f) f = some (getProperty out f))) ∧
    (∀ f, anonymizeField JVal.null f = some JVal.null) := by
  refine ⟨anonymizeRecord_defined fields record hnames, fun out hout => ?_, fun _ => rfl⟩
  have hframe := anonymizeRecord_frame fields record out hnames hout
  have htimes := anonymizeRecord_times fields record out hnames hout
  refine ⟨hframe.1, hframe.2, htimes, fun f hcount hown => ?_⟩
  have h := htimes f hown
  rw [hcount] at h
  unfold anonymizeTimes at h
  cases hv : anonymizeField (getProperty record f) f with
  | none => simp [hv] at h
  | some w =>
    simp only [hv, anonymizeTimes, Option.some.injEq] at h
    rw [h]

set_option maxRecDepth 100000 in
theorem anonymizeRecord_effect_witness :
    ∃ out, anonymizeRecord (scenarioRecords.headD []) ["email", "phone"] = some out ∧
      out.map Prod.fst = ["id", "email", "status"] ∧
      out.lookup "id" = some (JVal.str "1") ∧
      getProperty out "email" = JVal.str "anon-21b69d8a9a9881e4@anonymized.local" := by
  have h := anonymizeRecord_effect (scenarioRecords.headD []) ["email", "phone"]
    (by decide)
  obtain ⟨out, hout⟩ := h.1 (fun f hf hown => by
    have hf2 : f = "email" ∨ f = "phone" := by simpa using hf
    rcases hf2 with e | e
    · subst e
      exact Or.inr (by decide)
    · subst e
      exact absurd hown (by decide))
  obtain ⟨hkeys, hlook, _, hone⟩ := h.2.1 out hout
  refine ⟨out, hout, hkeys, hlook "id" (by decide), ?_⟩
  have he := hone "email" (by decide) (by decide)
  have hval : anonymizeField (getProperty (scenarioRecords.headD []) "email") "email" =
      some (JVal.str "anon-21b69d8a9a9881e4@anonymized.local") := rfl
  rw [hval, Option.some.injEq] at he
  exact he.symm
/-! ## Theorems: the paginated fetcher -/

theorem retryLoop_done (c : FetchConfig) (server : Server) (page fuel attempt : Nat)
    (st : FetchState) (h : ¬ attempt < c.retryAttempts) :
    retryLoop c server page fuel attempt st = st := by
  cases fuel with
  | zero => rfl
  | succ f => simp [retryLoop, h]

theorem retryLoop_all_fail (c : FetchConfig) (server : Server) (page : Nat)
    (hfail : ∀ a, server page a = Response.failure) :
    ∀ (n attempt fuel : Nat) (st : FetchState), attempt + n + 1 = c.retryAttempts → n < fuel →
      retryLoop c server page fuel attempt st =
        { st with hasMorePages := false,
                  events := st.events ++ (failedAttempts c page attempt n ++ [Event.request page]) } := by
  intro n
  induction n with
  | zero =>
    intro attempt fuel st hr hfuel
    obtain ⟨f, rfl⟩ : ∃ f, fuel = f + 1 := ⟨fuel - 1, by omega⟩
    have h1 : attempt < c.retryAttempts := by omega
    have h2 : ¬ attempt + 1 < c.retryAttempts := by omega
    rw [retryLoop]
    simp only [h1, if_true, hfail, catchFailure, h2, if_false]
    rw [retryLoop_done c server page f (attempt + 1) _ h2]
    simp [failedAttempts]
  | succ n ih =>
    intro attempt fuel st hr hfuel
    obtain ⟨f, rfl⟩ : ∃ f, fuel = f + 1 := ⟨fuel - 1, by omega⟩
    have h1 : attempt < c.retryAttempts := by omega
    have h2 : attempt + 1 < c.retryAttempts := by omega
    rw [retryLoop]
    simp only [h1, if_true, hfail, catchFailure, h2]
    rw [ih (attempt + 1) f _ (by omega) (by omega)]
    simp [failedAttempts]

theorem retryLoop_success_after (c : FetchConfig) (server : Server) (page : Nat)
    (body : JVal) (items : List JVal) (len : Nat)
    (hrec : pageRecords body = some (items, len)) :
    ∀ (n attempt fuel : Nat) (st : FetchState),
      (∀ j, attempt ≤ j → j < attempt + n → server page j = Response.failure) →
      server page (attempt + n) = Response.ok body →
      attempt + n < c.retryAttempts → n < fuel →
      retryLoop c server page fuel attempt st =
        { st with allRecords := st.allRecords ++ items,
                  hasMorePages := len == c.defaultLimit,
                  events := st.events ++ (failedAttempts c page attempt n ++ [Event.request page]) } := by
  intro n
  induction n with
  | zero =>
    intro attempt fuel st _ hok hr hfuel
    obtain ⟨f, rfl⟩ : ∃ f, fuel = f + 1 := ⟨fuel - 1, by omega⟩
    have h1 : attempt < c.retryAttempts := by omega
    rw [retryLoop]
    simp only [Nat.add_zero] at hok
    simp [h1, hok, hrec, failedAttempts]
  | succ n ih =>
    intro attempt fuel st hfailed hok hr hfuel
    obtain ⟨f, rfl⟩ : ∃ f, fuel = f + 1 := ⟨fuel - 1, by omega⟩
    have h1 : attempt < c.retryAttempts := by omega
    have h2 : attempt + 1 < c.retryAttempts := by omega
    rw [retryLoop]
    simp only [h1, if_true, hfailed attempt (le_refl _) (by omega), catchFailure, h2]
    rw [ih (attempt + 1) f _ (fun j hj1 hj2 => hfailed j (by omega) (by omega))
      (by rw [← hok]; congr 1; omega) (by omega) (by omega)]
    simp [failedAttempts]

theorem pageLoop_stopped (c : FetchConfig) (server : Server) (fuel : Nat) (st : FetchState)
    (h : st.hasMorePages = false ∨ c.maxPages < st.currentPage) :
    pageLoop c server fuel st = st := by
  cases fuel with
  | zero => rfl
  | succ f =>
    rw [pageLoop]
    rcases h with h | h
    · simp [h]
    · have : ¬ st.currentPage ≤ c.maxPages := by omega
      simp [this]

theorem pageLoop_step (c : FetchConfig) (server : Server) (fuel : Nat) (st : FetchState)
    (hmore : st.hasMorePages = true) (hpage : st.currentPage ≤ c.maxPages) :
    pageLoop c server (fuel + 1) st =
      pageLoop c server fuel
        (if (retryLoop c server st.currentPage c.retryAttempts 0 st).hasMorePages = true then
          { retryLoop c server st.currentPage c.retryAttempts 0 st with
              currentPage := (retryLoop c server st.currentPage c.retryAttempts 0 st).currentPage + 1,
              events := (retryLoop c server st.currentPage c.retryAttempts 0 st).events ++
                [Event.rateLimitSleep c.requestsPerSecond] }
        else
          { retryLoop c server st.currentPage c.retryAttempts 0 st with
              currentPage :=
                (retryLoop c server st.currentPage c.retryAttempts 0 st).currentPage + 1 }) := by
  rw [pageLoop]
  simp only [hmore, hpage, and_self, if_true]

theorem pageLoop_full_pages (c : FetchConfig) (server : Server) (body : Nat → JVal)
    (items : Nat → List JVal) (hretry : 1 ≤ c.retryAttempts) :
    ∀ (n first fuel : Nat) (st : FetchState),
      st.currentPage = first → st.hasMorePages = true → first + n ≤ c.maxPages + 1 →
      (∀ q, first ≤ q → q < first + n →
        server q 0 = Response.ok (body q) ∧
        pageRecords (body q) = some (items q, c.defaultLimit)) →
      pageLoop c server (n + fuel) st =
        pageLoop c server fuel
          { allRecords := st.allRecords ++ (List.range' first n).flatMap items,
            currentPage := first + n,
            hasMorePages := true,
            events := st.events ++ fullPagesEvents c first n } := by
  intro n
  induction n with
  | zero =>
    intro first fuel st hcur hmore _ _
    cases st
    simp_all [fullPagesEvents]
  | succ n ih =>
    intro first fuel st hcur hmore hmax hok
    have hq := hok first (le_refl _) (by omega)
    have hrun := retryLoop_success_after c server first (body first) (items first) c.defaultLimit
      hq.2 0 0 c.retryAttempts st (fun j h1 h2 => by omega) (by simpa using hq.1)
      (by omega) (by omega)
    have hfuel : n + 1 + fuel = (n + fuel) + 1 := by omega
    rw [hfuel, pageLoop_step c server (n + fuel) st hmore (by omega), hcur, hrun]
    simp only [beq_self_eq_true, if_true]
    rw [ih (first + 1) fuel _ (by simp [hcur]) rfl (by omega)
      (fun q h1 h2 => hok q (by omega) (by omega))]
    congr 1
    simp [fullPagesEvents, failedAttempts, List.range'_succ, Nat.add_assoc, Nat.add_comm 1 n]

theorem requestedPages_append (a b : List Event) :
    requestedPages (a ++ b) = requestedPages a ++ requestedPages b := by
  induction a with
  | nil => rfl
  | cons e rest ih => cases e <;> simp [requestedPages, ih]

theorem backoffDelays_append (a b : List Event) :
    backoffDelays (a ++ b) = backoffDelays a ++ backoffDelays b := by
  induction a with
  | nil => rfl
  | cons e rest ih => cases e <;> simp [backoffDelays, ih]

theorem fullPagesEvents_succ (c : FetchConfig) (first n : Nat) :
    fullPagesEvents c first (n + 1) =
      Event.request first :: Event.rateLimitSleep c.requestsPerSecond ::
        fullPagesEvents c (first + 1) n := by
  simp [fullPagesEvents, List.range'_succ, List.flatMap_cons]

theorem requestedPages_fullPagesEvents (c : FetchConfig) (first n : Nat) :
    requestedPages (fullPagesEvents c first n) = List.range' first n := by
  induction n generalizing first with
  | zero => rfl
  | succ n ih =>
    rw [fullPagesEvents_succ, List.range'_succ]
    simp [requestedPages, ih]

theorem backoffDelays_fullPagesEvents (c : FetchConfig) (first n : Nat) :
    backoffDelays (fullPagesEvents c first n) = [] := by
  induction n generalizing first with
  | zero => rfl
  | succ n ih =>
    rw [fullPagesEvents_succ]
    simp [backoffDelays, ih]

theorem requestedPages_failedAttempts (c : FetchConfig) (page attempt n : Nat) :
    requestedPages (failedAttempts c page attempt n) = List.replicate n page := by
  induction n generalizing attempt with
  | zero => rfl
  | succ n ih => simp [failedAttempts, requestedPages, ih, List.replicate_succ]

theorem backoffDelays_failedAttempts (c : FetchConfig) (page attempt n : Nat) :
    backoffDelays (failedAttempts c page attempt n) =
      (List.range' (attempt + 1) n).map (fun i => c.retryDelay * i) := by
  induction n generalizing attempt with
  | zero => rfl
  | succ n ih => simp [failedAttempts, backoffDelays, ih, List.range'_succ]

theorem sum_linear_backoff (d n : Nat) :
    2 * ((List.range' 1 n).map (fun i => d * i)).sum = d * (n + 1) * n := by
  induction n with
  | zero => simp
  | succ n ih =>
    rw [List.range'_1_concat, List.map_append, List.sum_append]
    simp only [List.map_cons, List.map_nil, List.sum_cons, List.sum_nil]
    have : 2 * (((List.range' 1 n).map (fun i => d * i)).sum + (d * (1 + n) + 0)) =
        2 * ((List.range' 1 n).map (fun i => d * i)).sum + 2 * (d * (1 + n)) := by ring
    rw [this, ih]
    ring

theorem fetchEndpoint_retry_exhausted (c : FetchConfig) (server : Server) (body : Nat → JVal)
    (items : Nat → List JVal) (p : Nat)
    (hretry : 1 ≤ c.retryAttempts) (hp1 : 1 ≤ p) (hp2 : p ≤ c.maxPages)
    (hprev : ∀ q, 1 ≤ q → q < p →
      server q 0 = Response.ok (body q) ∧
      pageRecords (body q) = some (items q, c.defaultLimit))
    (hfail : ∀ a, server p a = Response.failure) :
    fetchEndpoint c server =
      { allRecords := (List.range' 1 (p - 1)).flatMap items,
        currentPage := p + 1,
        hasMorePages := false,
        events := fullPagesEvents c 1 (p - 1) ++
          (failedAttempts c p 0 (c.retryAttempts - 1) ++ [Event.request p]) } := by
  unfold fetchEndpoint
  have hfuel : c.maxPages = (p - 1) + ((c.maxPages - p) + 1) := by omega
  rw [hfuel, pageLoop_full_pages c server body items hretry (p - 1) 1 _ initialFetchState rfl rfl
    (by omega) (fun q h1 h2 => hprev q h1 (by omega))]
  have hcur : 1 + (p - 1) = p := by omega
  rw [pageLoop_step c server _ _ rfl (by simp only [hcur]; omega)]
  simp only [hcur]
  rw [retryLoop_all_fail c server p hfail (c.retryAttempts - 1) 0 c.retryAttempts _ (by omega)
    (by omega)]
  simp only [Bool.false_eq_true, if_false]
  rw [pageLoop_stopped c server _ _ (Or.inl rfl)]
  simp [initialFetchState]

/-- C7: when pages 1..p-1 were fetched at the first attempt and full and every
request for page p fails, the loop makes exactly retryAttempts requests for
page p, sleeps retryDelay * i after the i-th failure for each i below
retryAttempts (in total retryDelay * retryAttempts * (retryAttempts - 1) / 2),
requests no later page, ends normally with hasMorePages false, and has
accumulated exactly the records of pages 1..p-1. -/
theorem retry_exhaustion_stops_pagination (c : FetchConfig) (server : Server)
    (body : Nat → JVal) (items : Nat → List JVal) (p : Nat)
    (hretry : 1 ≤ c.retryAttempts) (hp1 : 1 ≤ p) (hp2 : p ≤ c.maxPages)
    (hprev : ∀ q, 1 ≤ q → q < p →
      server q 0 = Response.ok (body q) ∧
      pageRecords (body q) = some (items q, c.defaultLimit))
    (hfail : ∀ a, server p a = Response.failure) :
    (fetchEndpoint c server).events =
      fullPagesEvents c 1 (p - 1) ++
        (failedAttempts c p 0 (c.retryAttempts - 1) ++ [Event.request p]) ∧
    requestedPages (fetchEndpoint c server).events =
      List.range' 1 (p - 1) ++ List.replicate c.retryAttempts p ∧
    backoffDelays (fetchEndpoint c server).events =
      (List.range' 1 (c.retryAttempts - 1)).map (fun i => c.retryDelay * i) ∧
    (backoffDelays (fetchEndpoint c server).events).sum =
      c.retryDelay * c.retryAttempts * (c.retryAttempts - 1) / 2 ∧
    (∀ q, p < q → q ∉ requestedPages (fetchEndpoint c server).events) ∧
    (fetchEndpoint c server).allRecords = (List.range' 1 (p - 1)).flatMap items ∧
    (fetchEndpoint c server).hasMorePages = false := by
  have hstate := fetchEndpoint_retry_exhausted c server body items p hretry hp1 hp2 hprev hfail
  have hreq : requestedPages (fetchEndpoint c server).events =
      List.range' 1 (p - 1) ++ List.replicate c.retryAttempts p := by
    rw [hstate]
    simp only [requestedPages_append, requestedPages_fullPagesEvents,
      requestedPages_failedAttempts, requestedPages]
    have hr : c.retryAttempts = (c.retryAttempts - 1) + 1 := by omega
    conv_rhs => rw [hr, List.replicate_succ']
  have hback : backoffDelays (fetchEndpoint c server).events =
      (List.range' 1 (c.retryAttempts - 1)).map (fun i => c.retryDelay * i) := by
    rw [hstate]
    simp [backoffDelays_append, backoffDelays_fullPagesEvents, backoffDelays_failedAttempts,
      backoffDelays]
  refine ⟨by rw [hstate], hreq, hback, ?_, ?_, by rw [hstate], by rw [hstate]⟩
  · rw [hback]
    have h2 := sum_linear_backoff c.retryDelay (c.retryAttempts - 1)
    have hr : c.retryAttempts - 1 + 1 = c.retryAttempts := by omega
    rw [hr] at h2
    rw [← h2, Nat.mul_div_cancel_left _ (by norm_num : 0 < 2)]
  · intro q hq hmem
    rw [hreq] at hmem
    rcases List.mem_append.mp hmem with h | h
    · have := (List.mem_range'_1.mp h).2
      omega
    · have := (List.mem_replicate.mp h).2
      omega

theorem retry_exhaustion_stops_pagination_witness :
    requestedPages (fetchEndpoint exampleConfig failingServer).events = [1, 2, 2, 2] ∧
    backoffDelays (fetchEndpoint exampleConfig failingServer).events = [1000, 2000] ∧
    (backoffDelays (fetchEndpoint exampleConfig failingServer).events).sum = 3000 ∧
    (fetchEndpoint exampleConfig failingServer).allRecords = examplePageItems 1 :=
  have h := retry_exhaustion_stops_pagination exampleConfig failingServer
    (fun q => JVal.arr (examplePageItems q)) examplePageItems 2
    (by decide) (by decide) (by decide)
    (fun q h1 h2 => by
      have hq : q = 1 := by omega
      subst hq
      exact ⟨rfl, rfl⟩)
    (fun _ => rfl)
  ⟨h.2.1, h.2.2.1, h.2.2.2.1, by rw [h.2.2.2.2.2.1]; rfl⟩

theorem fetchEndpoint_success_run (c : FetchConfig) (server : Server) (body : Nat → JVal)
    (items : Nat → List JVal) (len : Nat → Nat) (k : Nat)
    (hretry : 1 ≤ c.retryAttempts)
    (hok : ∀ q, 1 ≤ q → q ≤ k →
      server q 0 = Response.ok (body q) ∧ pageRecords (body q) = some (items q, len q))
    (hk1 : 1 ≤ k) (hk2 : k ≤ c.maxPages)
    (hfull : ∀ q, 1 ≤ q → q < k → len q = c.defaultLimit)
    (hlast : k = c.maxPages ∨ len k ≠ c.defaultLimit) :
    requestedPages (fetchEndpoint c server).events = List.range' 1 k ∧
    (fetchEndpoint c server).allRecords = (List.range' 1 k).flatMap items := by
  unfold fetchEndpoint
  have hfuel : c.maxPages = (k - 1) + ((c.maxPages - k) + 1) := by omega
  rw [hfuel, pageLoop_full_pages c server body items hretry (k - 1) 1 _ initialFetchState rfl rfl
    (by omega) (fun q h1 h2 => by
      have h := hok q h1 (by omega)
      rw [hfull q h1 (by omega)] at h
      exact h)]
  have hcur : 1 + (k - 1) = k := by omega
  have hk := hok k hk1 (le_refl _)
  rw [pageLoop_step c server _ _ rfl (by simp only [hcur]; omega)]
  simp only [hcur]
  rw [retryLoop_success_after c server k (body k) (items k) (len k) hk.2 0 0 c.retryAttempts _
    (fun j h1 h2 => by omega) (by simpa using hk.1) (by omega) (by omega)]
  have hrange : List.range' 1 k = List.range' 1 (k - 1) ++ [k] := by
    have h := List.range'_1_concat 1 (k - 1)
    rw [show k - 1 + 1 = k by omega, show 1 + (k - 1) = k by omega] at h
    exact h
  by_cases hlen : len k = c.defaultLimit
  · have hkm : k = c.maxPages := by
      rcases hlast with h | h
      · exact h
      · exact absurd hlen h
    simp only [hlen, beq_self_eq_true, if_true]
    rw [pageLoop_stopped c server _ _ (Or.inr (by simp only []; omega))]
    simp [initialFetchState, requestedPages_append, requestedPages_fullPagesEvents,
      requestedPages, failedAttempts, hrange]
  · have hb : (len k == c.defaultLimit) = false := by simpa using hlen
    simp only [hb, Bool.false_eq_true, if_false]
    rw [pageLoop_stopped c server _ _ (Or.inl rfl)]
    simp [initialFetchState, requestedPages_append, requestedPages_fullPagesEvents,
      requestedPages, failedAttempts, hrange]

set_option maxRecDepth 100000 in
/-- C5: with maxPages and retryAttempts at least 1, every request answered
successfully and no page longer than defaultLimit, the loop issues exactly one
request for each of the pages 1..k in order and accumulates the concatenation
of their records in page order, where k is the first page shorter than
defaultLimit, or maxPages when no page up to maxPages is shorter; for page
sizes 100, 100, 37 with defaultLimit 100 and maxPages 5 these are 3 requests
and 237 records. -/
theorem pagination_success_run :
    (∀ (c : FetchConfig) (server : Server) (body : Nat → JVal) (items : Nat → List JVal)
        (len : Nat → Nat) (k : Nat),
      1 ≤ c.maxPages → 1 ≤ c.retryAttempts →
      (∀ q a, 1 ≤ q → q ≤ c.maxPages →
        server q a = Response.ok (body q) ∧ pageRecords (body q) = some (items q, len q) ∧
        len q ≤ c.defaultLimit) →
      1 ≤ k → k ≤ c.maxPages →
      (∀ q, 1 ≤ q → q < k → ¬ len q < c.defaultLimit) →
      (k = c.maxPages ∨ len k < c.defaultLimit) →
      requestedPages (fetchEndpoint c server).events = List.range' 1 k ∧
      (fetchEndpoint c server).allRecords = (List.range' 1 k).flatMap items) ∧
    (requestedPages (fetchEndpoint exampleConfig exampleServer).events = [1, 2, 3] ∧
      (fetchEndpoint exampleConfig exampleServer).allRecords.length = 237) := by
  refine ⟨fun c server body items len k hmax hretry hok hk1 hk2 hfull hlast => ?_, by decide⟩
  refine fetchEndpoint_success_run c server body items len k hretry
    (fun q h1 h2 => ⟨(hok q 0 h1 (by omega)).1, (hok q 0 h1 (by omega)).2.1⟩) hk1 hk2
    (fun q h1 h2 => ?_) ?_
  · have := (hok q 0 h1 (by omega)).2.2
    have := hfull q h1 h2
    omega
  · rcases hlast with h | h
    · exact Or.inl h
    · exact Or.inr (by omega)

theorem pagination_success_run_witness :
    requestedPages (fetchEndpoint exampleConfig exampleServer).events = List.range' 1 3 ∧
    (fetchEndpoint exampleConfig exampleServer).allRecords =
      (List.range' 1 3).flatMap examplePageItems :=
  pagination_success_run.1 exampleConfig exampleServer
    (fun q => JVal.arr (examplePageItems q)) examplePageItems examplePageSize 3
    (by decide) (by decide)
    (fun q a h1 h2 => ⟨rfl, by simp [pageRecords, responseRecords, spreadItems, recordsLength,
      examplePageItems], by
        have h100 : exampleConfig.defaultLimit = 100 := rfl
        rw [h100]
        unfold examplePageSize
        split_ifs <;> omega⟩)
    (by decide) (by decide)
    (fun q h1 h2 => by
      have h100 : exampleConfig.defaultLimit = 100 := rfl
      rw [h100]
      unfold examplePageSize
      have : q ≤ 2 := by omega
      simp [this])
    (Or.inr (by decide))

theorem retryLoop_events_extends (c : FetchConfig) (server : Server) (page : Nat) :
    ∀ (fuel attempt : Nat) (st : FetchState),
      ∃ t, (retryLoop c server page fuel attempt st).events = st.events ++ t := by
  intro fuel
  induction fuel with
  | zero => exact fun _ st => ⟨[], by simp [retryLoop]⟩
  | succ f ih =>
    intro attempt st
    rw [retryLoop]
    by_cases h : attempt < c.retryAttempts
    · simp only [h, if_true]
      cases hs : server page attempt with
      | failure =>
        simp only []
        obtain ⟨t, ht⟩ := ih (catchFailure c attempt
          { st with events := st.events ++ [Event.request page] }).1
          (catchFailure c attempt { st with events := st.events ++ [Event.request page] }).2
        rw [ht]
        unfold catchFailure
        split_ifs
        · exact ⟨[Event.request page] ++
            ([Event.backoffSleep (c.retryDelay * (attempt + 1))] ++ t), by simp⟩
        · exact ⟨[Event.request page] ++ t, by simp⟩
      | ok data =>
        simp only []
        cases hp : pageRecords data with
        | none =>
          simp only []
          unfold catchFailure
          split_ifs
          · exact ⟨[Event.request page] ++
              [Event.backoffSleep (c.retryDelay * (attempt + 1))], by simp⟩
          · exact ⟨[Event.request page], by simp⟩
        | some r =>
          obtain ⟨items, len⟩ := r
          exact ⟨[Event.request page], by simp⟩
    · exact ⟨[], by simp [h]⟩

theorem retryLoop_first_request (c : FetchConfig) (server : Server) (page : Nat)
    (st : FetchState) (hretry : 1 ≤ c.retryAttempts) :
    ∃ t, (retryLoop c server page c.retryAttempts 0 st).events =
      st.events ++ Event.request page :: t := by
  obtain ⟨f, hf⟩ : ∃ f, c.retryAttempts = f + 1 := ⟨c.retryAttempts - 1, by omega⟩
  have h0 : 0 < c.retryAttempts := by omega
  rw [hf, retryLoop]
  simp only [h0, if_true]
  cases hs : server page 0 with
  | failure =>
    simp only []
    obtain ⟨t, ht⟩ := retryLoop_events_extends c server page f
      (catchFailure c 0 { st with events := st.events ++ [Event.request page] }).1
      (catchFailure c 0 { st with events := st.events ++ [Event.request page] }).2
    rw [ht]
    unfold catchFailure
    split_ifs
    · exact ⟨[Event.backoffSleep (c.retryDelay * (0 + 1))] ++ t, by simp⟩
    · exact ⟨t, by simp⟩
  | ok data =>
    simp only []
    cases hp : pageRecords data with
    | none =>
      simp only []
      unfold catchFailure
      split_ifs
      · exact ⟨[Event.backoffSleep (c.retryDelay * (0 + 1))], by simp⟩
      · exact ⟨[], by simp⟩
    | some r =>
      obtain ⟨items, len⟩ := r
      exact ⟨[], by simp⟩

theorem pageLoop_events_extends (c : FetchConfig) (server : Server) :
    ∀ (fuel : Nat) (st : FetchState),
      ∃ t, (pageLoop c server fuel st).events = st.events ++ t := by
  intro fuel
  induction fuel with
  | zero => exact fun st => ⟨[], by simp [pageLoop]⟩
  | succ f ih =>
    intro st
    by_cases h : st.hasMorePages = true ∧ st.currentPage ≤ c.maxPages
    · rw [pageLoop_step c server f st h.1 h.2]
      obtain ⟨t1, ht1⟩ := retryLoop_events_extends c server st.currentPage c.retryAttempts 0 st
      split_ifs
      · obtain ⟨t, ht⟩ := ih
          { retryLoop c server st.currentPage c.retryAttempts 0 st with
              currentPage := (retryLoop c server st.currentPage c.retryAttempts 0 st).currentPage + 1,
              events := (retryLoop c server st.currentPage c.retryAttempts 0 st).events ++
                [Event.rateLimitSleep c.requestsPerSecond] }
        exact ⟨t1 ++ ([Event.rateLimitSleep c.requestsPerSecond] ++ t), by
          rw [ht]; simp [ht1]⟩
      · obtain ⟨t, ht⟩ := ih
          { retryLoop c server st.currentPage c.retryAttempts 0 st with
              currentPage :=
                (retryLoop c server st.currentPage c.retryAttempts 0 st).currentPage + 1 }
        exact ⟨t1 ++ t, by rw [ht]; simp [ht1]⟩
    · rw [pageLoop]
      exact ⟨[], by simp [h]⟩

theorem pageLoop_requests_current (c : FetchConfig) (server : Server) (fuel : Nat)
    (st : FetchState) (hretry : 1 ≤ c.retryAttempts) (hmore : st.hasMorePages = true)
    (hpage : st.currentPage ≤ c.maxPages) :
    ∃ t, (pageLoop c server (fuel + 1) st).events =
      st.events ++ Event.request st.currentPage :: t := by
  rw [pageLoop_step c server fuel st hmore hpage]
  obtain ⟨t1, ht1⟩ := retryLoop_first_request c server st.currentPage st hretry
  split_ifs
  · obtain ⟨t, ht⟩ := pageLoop_events_extends c server fuel
      { retryLoop c server st.currentPage c.retryAttempts 0 st with
          currentPage := (retryLoop c server st.currentPage c.retryAttempts 0 st).currentPage + 1,
          events := (retryLoop c server st.currentPage c.retryAttempts 0 st).events ++
            [Event.rateLimitSleep c.requestsPerSecond] }
    exact ⟨t1 ++ ([Event.rateLimitSleep c.requestsPerSecond] ++ t), by rw [ht]; simp [ht1]⟩
  · obtain ⟨t, ht⟩ := pageLoop_events_extends c server fuel
      { retryLoop c server st.currentPage c.retryAttempts 0 st with
          currentPage :=
            (retryLoop c server st.currentPage c.retryAttempts 0 st).currentPage + 1 }
    exact ⟨t1 ++ t, by rw [ht]; simp [ht1]⟩

/-- C6, counterexample to the claim as stated: with defaultLimit 2 and
maxPages 5, page 1 is fetched successfully with three records, which is not
fewer than defaultLimit, and page 1 is below maxPages, yet no request for
page 2 follows. -/
theorem next_page_claim_fails :
    oversizeServer 1 0 = Response.ok (JVal.arr [JVal.num "1", JVal.num "2", JVal.num "3"]) ∧
    pageRecords (JVal.arr [JVal.num "1", JVal.num "2", JVal.num "3"]) =
      some ([JVal.num "1", JVal.num "2", JVal.num "3"], 3) ∧
    ¬ (3 < oversizeConfig.defaultLimit) ∧
    1 < oversizeConfig.maxPages ∧
    requestedPages (fetchEndpoint oversizeConfig oversizeServer).events = [1] ∧
    Event.request 2 ∉ (fetchEndpoint oversizeConfig oversizeServer).events := by
  refine ⟨rfl, rfl, by decide, by decide, by decide, by decide⟩

/-- C6, amended: for a page below maxPages that is fetched successfully,
possibly after failed attempts, the page loop requests the next page if and
only if the page returned exactly defaultLimit records; a page with fewer or
with more records ends the pagination. -/
theorem next_page_iff_exactly_full (c : FetchConfig) (server : Server) (st : FetchState)
    (fuel : Nat) (body : JVal) (items : List JVal) (len n : Nat)
    (hmore : st.hasMorePages = true) (hpage : st.currentPage < c.maxPages)
    (hfuel : c.maxPages + 1 ≤ fuel + st.currentPage)
    (hfailed : ∀ j, j < n → server st.currentPage j = Response.failure)
    (hok : server st.currentPage n = Response.ok body)
    (hrec : pageRecords body = some (items, len))
    (hn : n < c.retryAttempts) :
    ∃ tail, (pageLoop c server fuel st).events =
        st.events ++ (failedAttempts c st.currentPage 0 n ++ [Event.request st.currentPage]) ++
          tail ∧
      (Event.request (st.currentPage + 1) ∈ tail ↔ len = c.defaultLimit) := by
  obtain ⟨f, rfl⟩ : ∃ f, fuel = f + 1 + 1 := ⟨fuel - 2, by omega⟩
  rw [pageLoop_step c server (f + 1) st hmore (by omega)]
  rw [retryLoop_success_after c server st.currentPage body items len hrec n 0 c.retryAttempts st
    (fun j _ h2 => hfailed j (by omega)) (by simpa using hok) (by omega) (by omega)]
  by_cases hlen : len = c.defaultLimit
  · simp only [hlen, beq_self_eq_true, if_true]
    obtain ⟨t, ht⟩ := pageLoop_requests_current c server f
      { allRecords := st.allRecords ++ items, currentPage := st.currentPage + 1,
        hasMorePages := true,
        events := st.events ++ (failedAttempts c st.currentPage 0 n ++
          [Event.request st.currentPage]) ++ [Event.rateLimitSleep c.requestsPerSecond] }
      (by omega) rfl (by simp only []; omega)
    refine ⟨[Event.rateLimitSleep c.requestsPerSecond] ++
      Event.request (st.currentPage + 1) :: t, ?_, by simp⟩
    rw [ht]
    simp
  · have hb : (len == c.defaultLimit) = false := by simpa using hlen
    simp only [hb, Bool.false_eq_true, if_false]
    rw [pageLoop_stopped c server _ _ (Or.inl rfl)]
    exact ⟨[], by simp, by simp [hlen]⟩

set_option maxRecDepth 100000 in
theorem next_page_iff_exactly_full_witness :
    ∃ tail, (pageLoop exampleConfig exampleServer 5 initialFetchState).events =
        initialFetchState.events ++
          (failedAttempts exampleConfig initialFetchState.currentPage 0 0 ++
            [Event.request initialFetchState.currentPage]) ++ tail ∧
      (Event.request (initialFetchState.currentPage + 1) ∈ tail ↔
        100 = exampleConfig.defaultLimit) :=
  next_page_iff_exactly_full exampleConfig exampleServer initialFetchState 5
    (JVal.arr (examplePageItems 1)) (examplePageItems 1) 100 0
    rfl (by decide) (by decide) (fun j hj => absurd hj (Nat.not_lt_zero j)) rfl rfl (by decide)


/-! ## Theorems: the type check -/

theorem typeErrors_string (key : String) (v : JVal) :
    typeErrors key (some "string") v =
      if jsTypeof v = "string" then [] else [typeMessage key "string" v] := by
  unfold typeErrors typeMessage
  by_cases h : jsTypeof v = "string" <;> simp [h, String.append_assoc]

theorem typeErrors_number (key : String) (v : JVal) :
    typeErrors key (some "number") v =
      if jsTypeof v = "number" then [] else [typeMessage key "number" v] := by
  unfold typeErrors typeMessage
  by_cases h : jsTypeof v = "number" <;> simp [h, String.append_assoc]

theorem typeErrors_boolean (key : String) (v : JVal) :
    typeErrors key (some "boolean") v =
      if jsTypeof v = "boolean" then [] else [typeMessage key "boolean" v] := by
  unfold typeErrors typeMessage
  by_cases h : jsTypeof v = "boolean" <;> simp [h, String.append_assoc]

theorem typeErrors_object (key : String) (v : JVal) :
    typeErrors key (some "object") v =
      if jsTypeof v = "object" ∧ ¬ (v matches JVal.null) then []
      else [typeMessage key "object" v] := by
  unfold typeErrors typeMessage
  cases v <;> simp [jsTypeof, String.append_assoc]

theorem typeErrors_array (key : String) (v : JVal) :
    typeErrors key (some "array") v =
      if isArray v = true then [] else [typeMessage key "array" v] := by
  unfold typeErrors typeMessage
  cases v <;> simp [jsTypeof, isArray, String.append_assoc]

/-- The type check follows the category of the value for every declared type
and value, an array under the declared type object apart: a matching category
gives no violation, a different one gives exactly the one message. -/
theorem typeErrors_by_category (key t : String) (v : JVal)
    (ht : t ∈ ["string", "number", "boolean", "object", "array"])
    (hobj : ¬ (t = "object" ∧ isArray v = true))
    (hproto : ¬ (v matches JVal.objectPrototype)) :
    (valueCategory v = some t → typeErrors key (some t) v = []) ∧
    (valueCategory v ≠ some t → typeErrors key (some t) v = [typeMessage key t v]) := by
  simp only [List.mem_cons, List.mem_singleton, List.not_mem_nil, or_false] at ht
  rcases ht with rfl | rfl | rfl | rfl | rfl
  · rw [typeErrors_string]
    cases v <;> simp [valueCategory, jsTypeof]
  · rw [typeErrors_number]
    cases v <;> simp [valueCategory, jsTypeof]
  · rw [typeErrors_boolean]
    cases v <;> simp [valueCategory, jsTypeof]
  · rw [typeErrors_object]
    cases v with
    | arr items => exact absurd ⟨rfl, rfl⟩ hobj
    | objectPrototype => exact absurd rfl hproto
    | _ => simp [valueCategory, jsTypeof]
  · rw [typeErrors_array]
    cases v <;> simp [valueCategory, jsTypeof, isArray]

/-- C11, at the failing input: the field tags of the record is an array, the
schema declares tags of type object, so the category of the value differs from
the declared type; yet the type check of the property emits nothing and the
validator returns no violation. A null value under the same declaration is
reported, with the text got object. -/
theorem array_passes_declared_object :
    hasOwn taggedRecord "tags" = true ∧
    valueCategory (getProperty taggedRecord "tags") = some "array" ∧
    typeErrors "tags" (some "object") (getProperty taggedRecord "tags") = [] ∧
    validateAgainstSchema taggedRecord tagsObjectSchema = some [] ∧
    typeErrors "tags" (some "object") JVal.null =
      ["Field \x27tags\x27 should be object, got object"] := by
  refine ⟨by decide, rfl, by decide, by decide, by decide⟩


/-! ## Theorems: the response shapes -/

/-- The shapes the normalization handles as the specification says: an array
body, an object with an array under `data`, a scalar body, and an object
with none of the three keys. -/
theorem pageRecords_handled_shapes :
    (∀ items : List JVal, pageRecords (JVal.arr items) = some (items, items.length)) ∧
    (∀ (fields : Obj) (items : List JVal), getProperty fields "data" = JVal.arr items →
      pageRecords (JVal.obj fields) = some (items, items.length)) ∧
    (∀ b : Bool, pageRecords (JVal.bool b) = some ([], 0)) ∧
    (∀ text : String, pageRecords (JVal.num text) = some ([], 0)) ∧
    (∀ s : String, pageRecords (JVal.str s) = some ([], 0)) ∧
    (∀ fields : Obj, fields.lookup "data" = none → fields.lookup "records" = none →
      fields.lookup "results" = none → pageRecords (JVal.obj fields) = some ([], 0)) := by
  refine ⟨fun _ => rfl, fun fields items h => ?_, fun _ => rfl, fun _ => rfl, fun _ => rfl,
    fun fields h1 h2 h3 => ?_⟩
  · simp [pageRecords, responseRecords, h, jsOr, truthy, spreadItems, recordsLength]
  · have hd : getProperty fields "data" = JVal.undefined := by
      unfold getProperty; rw [h1]; rfl
    have hr : getProperty fields "records" = JVal.undefined := by
      unfold getProperty; rw [h2]; rfl
    have hs : getProperty fields "results" = JVal.undefined := by
      unfold getProperty; rw [h3]; rfl
    simp [pageRecords, responseRecords, hd, hr, hs, jsOr, truthy, spreadItems, recordsLength]

/-- C12, at the failing inputs: a `null` body makes the statements after
`success = true` throw, so the catch block runs (the attempt is counted and
the back-off is slept) and the loop goes on to the next page instead of
stopping on a page of zero records; a string under `data` is spread into
one record per character; an object under `data` hides the array under
`records` and throws. -/
theorem other_shapes_not_zero_records :
    pageRecords JVal.null = none ∧
    (fetchEndpoint twoPageConfig nullBodyServer).events =
      [Event.request 1, Event.backoffSleep 1000, Event.rateLimitSleep 1,
       Event.request 2, Event.backoffSleep 1000, Event.rateLimitSleep 1] ∧
    pageRecords (JVal.obj [("data", JVal.str "abc")]) =
      some ([JVal.str "a", JVal.str "b", JVal.str "c"], 3) ∧
    pageRecords (JVal.obj [("data", JVal.obj []), ("records", JVal.arr [JVal.num "1"])]) =
      none := by
  refine ⟨rfl, by decide, rfl, rfl⟩


/-! ## Theorems: the rate-limit delay -/

theorem rateLimitDelays_append (a b : List Event) :
    rateLimitDelays (a ++ b) = rateLimitDelays a ++ rateLimitDelays b := by
  induction a with
  | nil => rfl
  | cons e rest ih => cases e <;> simp [rateLimitDelays, ih]

theorem rateLimitDelays_fullPagesEvents (c : FetchConfig) (first n : Nat) :
    rateLimitDelays (fullPagesEvents c first n) = List.replicate n c.requestsPerSecond := by
  induction n generalizing first with
  | zero => rfl
  | succ n ih =>
    rw [fullPagesEvents_succ]
    simp [rateLimitDelays, ih, List.replicate_succ]

/-- When the pages before page k are full and page k is fetched at the first
attempt with a length other than defaultLimit, a rate-limit delay follows each
page but the last: one delay fewer than pages requested. -/
theorem rate_limit_between_requests (c : FetchConfig) (server : Server) (body : Nat → JVal)
    (items : Nat → List JVal) (len k : Nat)
    (hretry : 1 ≤ c.retryAttempts) (hk1 : 1 ≤ k) (hk2 : k ≤ c.maxPages)
    (hprev : ∀ q, 1 ≤ q → q < k →
      server q 0 = Response.ok (body q) ∧
      pageRecords (body q) = some (items q, c.defaultLimit))
    (hlast : server k 0 = Response.ok (body k) ∧ pageRecords (body k) = some (items k, len))
    (hshort : len ≠ c.defaultLimit) :
    (fetchEndpoint c server).events = fullPagesEvents c 1 (k - 1) ++ [Event.request k] ∧
    (requestedPages (fetchEndpoint c server).events).length = k ∧
    (rateLimitDelays (fetchEndpoint c server).events).length = k - 1 := by
  have hev : (fetchEndpoint c server).events =
      fullPagesEvents c 1 (k - 1) ++ [Event.request k] := by
    unfold fetchEndpoint
    have hfuel : c.maxPages = (k - 1) + ((c.maxPages - k) + 1) := by omega
    rw [hfuel, pageLoop_full_pages c server body items hretry (k - 1) 1 _ initialFetchState
      rfl rfl (by omega) (fun q h1 h2 => hprev q h1 (by omega))]
    have hcur : 1 + (k - 1) = k := by omega
    rw [pageLoop_step c server _ _ rfl (by simp only [hcur]; omega)]
    simp only [hcur]
    rw [retryLoop_success_after c server k (body k) (items k) len hlast.2 0 0 c.retryAttempts _
      (fun j h1 h2 => by omega) (by simpa using hlast.1) (by omega) (by omega)]
    have hb : (len == c.defaultLimit) = false := by simpa using hshort
    simp only [hb, Bool.false_eq_true, if_false]
    rw [pageLoop_stopped c server _ _ (Or.inl rfl)]
    simp [initialFetchState, failedAttempts]
  refine ⟨hev, ?_, ?_⟩
  · rw [hev, requestedPages_append, requestedPages_fullPagesEvents]
    simp [requestedPages]
    omega
  · rw [hev, rateLimitDelays_append, rateLimitDelays_fullPagesEvents]
    simp [rateLimitDelays]

/-- C13, at the failing input: with the default configuration (one page at
most, limit 100) and a first page of exactly 100 records, the loop requests
page 1 only and still sleeps one rate-limit delay after it, although no
request follows: as many delays as pages requested, not one fewer. -/
theorem rate_limit_after_last_page :
    defaultConfig.maxPages = 1 ∧ defaultConfig.defaultLimit = 100 ∧
    (examplePageItems 1).length = 100 ∧
    (fetchEndpoint defaultConfig exampleServer).events =
      [Event.request 1, Event.rateLimitSleep 1] ∧
    (requestedPages (fetchEndpoint defaultConfig exampleServer).events).length = 1 ∧
    (rateLimitDelays (fetchEndpoint defaultConfig exampleServer).events).length = 1 := by
  refine ⟨rfl, rfl, by decide, by decide, by decide, by decide⟩


/-! ## Theorems: the cumulative back-off -/

theorem remainingBackoff_step (c : FetchConfig) (attempt : Nat)
    (h : attempt + 1 < c.retryAttempts) :
    remainingBackoff c attempt =
      c.retryDelay * (attempt + 1) + remainingBackoff c (attempt + 1) := by
  unfold remainingBackoff
  have hn : c.retryAttempts - 1 - attempt = (c.retryAttempts - 1 - (attempt + 1)) + 1 := by omega
  rw [hn, List.range'_succ]
  simp

theorem retryLoop_backoff_le (c : FetchConfig) (server : Server) (page : Nat) :
    ∀ (fuel attempt : Nat) (st : FetchState),
      (backoffDelays (retryLoop c server page fuel attempt st).events).sum ≤
        (backoffDelays st.events).sum + remainingBackoff c attempt := by
  intro fuel
  induction fuel with
  | zero => intro attempt st; simp [retryLoop]
  | succ f ih =>
    intro attempt st
    rw [retryLoop]
    by_cases h : attempt < c.retryAttempts
    · simp only [h, if_true]
      by_cases h2 : attempt + 1 < c.retryAttempts
      · have hstep := remainingBackoff_step c attempt h2
        cases hs : server page attempt with
        | failure =>
          simp only [catchFailure, h2, if_true]
          refine le_trans (ih (attempt + 1) _) ?_
          simp [backoffDelays_append, backoffDelays, hstep]
          omega
        | ok data =>
          simp only []
          cases hp : pageRecords data with
          | none =>
            simp [catchFailure, h2, backoffDelays_append, backoffDelays, hstep]
          | some r =>
            obtain ⟨items, len⟩ := r
            simp [backoffDelays_append, backoffDelays]
      · cases hs : server page attempt with
        | failure =>
          simp only [catchFailure, h2, if_false]
          refine le_trans (ih (attempt + 1) _) ?_
          have hz : remainingBackoff c (attempt + 1) = 0 := by
            unfold remainingBackoff
            have : c.retryAttempts - 1 - (attempt + 1) = 0 := by omega
            rw [this]
            rfl
          simp [backoffDelays_append, backoffDelays, hz]
        | ok data =>
          simp only []
          cases hp : pageRecords data with
          | none =>
            simp [catchFailure, h2, backoffDelays_append, backoffDelays]
          | some r =>
            obtain ⟨items, len⟩ := r
            simp [backoffDelays_append, backoffDelays]
    · simp [h]

theorem pageLoop_backoff_le (c : FetchConfig) (server : Server) :
    ∀ (fuel : Nat) (st : FetchState),
      (backoffDelays (pageLoop c server fuel st).events).sum ≤
        (backoffDelays st.events).sum + fuel * remainingBackoff c 0 := by
  intro fuel
  induction fuel with
  | zero => intro st; simp [pageLoop]
  | succ f ih =>
    intro st
    by_cases h : st.hasMorePages = true ∧ st.currentPage ≤ c.maxPages
    · rw [pageLoop_step c server f st h.1 h.2]
      have hr := retryLoop_backoff_le c server st.currentPage c.retryAttempts 0 st
      split_ifs
      · refine le_trans (ih _) ?_
        simp only [backoffDelays_append, backoffDelays, List.append_nil]
        rw [Nat.add_mul]
        omega
      · refine le_trans (ih _) ?_
        simp only []
        rw [Nat.add_mul]
        omega
    · rw [pageLoop]
      simp [h]

theorem remainingBackoff_zero (c : FetchConfig) :
    remainingBackoff c 0 = c.retryDelay * c.retryAttempts * (c.retryAttempts - 1) / 2 := by
  have h2 := sum_linear_backoff c.retryDelay (c.retryAttempts - 1)
  unfold remainingBackoff
  simp only [Nat.zero_add, Nat.sub_zero]
  have hr : c.retryDelay * (c.retryAttempts - 1 + 1) * (c.retryAttempts - 1) =
      c.retryDelay * c.retryAttempts * (c.retryAttempts - 1) := by
    rcases Nat.eq_zero_or_pos c.retryAttempts with h0 | hpos
    · simp [h0]
    · rw [Nat.sub_add_cancel hpos]
  rw [hr] at h2
  rw [← h2, Nat.mul_div_cancel_left _ (by norm_num : 0 < 2)]

/-- C16, counterexample to the claim as stated: with one page, four attempts
and a delay of 1000 ms, a source failing every request makes the loop sleep
1000 + 2000 + 3000 = 6000 ms of back-off, more than
maxPages * retryAttempts * retryDelay = 4000 ms. -/
theorem backoff_bound_claim_fails :
    backoffDelays (fetchEndpoint fourAttemptsConfig alwaysFailingServer).events =
      [1000, 2000, 3000] ∧
    fourAttemptsConfig.maxPages * fourAttemptsConfig.retryAttempts *
      fourAttemptsConfig.retryDelay = 4000 ∧
    ¬ ((backoffDelays (fetchEndpoint fourAttemptsConfig alwaysFailingServer).events).sum ≤
      fourAttemptsConfig.maxPages * fourAttemptsConfig.retryAttempts *
        fourAttemptsConfig.retryDelay) := by
  refine ⟨by decide, by decide, by decide⟩

/-- C16, amended: for every configuration and every pattern of successes and
failures, the cumulative retry back-off slept by the fetch loop of one endpoint
is at most maxPages * retryDelay * retryAttempts * (retryAttempts - 1) / 2
milliseconds; with at most three attempts this is within
maxPages * retryAttempts * retryDelay. -/
theorem backoff_bound (c : FetchConfig) (server : Server) :
    (backoffDelays (fetchEndpoint c server).events).sum ≤
      c.maxPages * (c.retryDelay * c.retryAttempts * (c.retryAttempts - 1) / 2) ∧
    (c.retryAttempts ≤ 3 →
      (backoffDelays (fetchEndpoint c server).events).sum ≤
        c.maxPages * c.retryAttempts * c.retryDelay) := by
  have h := pageLoop_backoff_le c server c.maxPages initialFetchState
  have h0 : (backoffDelays initialFetchState.events).sum = 0 := rfl
  rw [h0, Nat.zero_add, remainingBackoff_zero] at h
  refine ⟨h, fun h3 => le_trans h ?_⟩
  have hassoc : c.maxPages * c.retryAttempts * c.retryDelay =
      c.maxPages * (c.retryAttempts * c.retryDelay) := Nat.mul_assoc _ _ _
  rw [hassoc]
  refine Nat.mul_le_mul_left _ ?_
  have hr : c.retryAttempts = 0 ∨ c.retryAttempts = 1 ∨ c.retryAttempts = 2 ∨
      c.retryAttempts = 3 := by omega
  rcases hr with hr | hr | hr | hr <;> rw [hr] <;> omega

theorem backoff_bound_witness :
    exampleConfig.retryAttempts ≤ 3 ∧
    (backoffDelays (fetchEndpoint exampleConfig failingServer).events).sum ≤
      exampleConfig.maxPages * exampleConfig.retryAttempts * exampleConfig.retryDelay :=
  ⟨by decide, (backoff_bound exampleConfig failingServer).2 (by decide)⟩


/-! ## Theorems: distinct values under the anonymizer -/

theorem hashInput_injective (v1 v2 : JVal) (fieldName : String)
    (h : hashInput v1 fieldName = hashInput v2 fieldName) : toStr v1 = toStr v2 := by
  unfold hashInput at h
  cases h1 : toStr v1 with
  | none =>
    cases h2 : toStr v2 with
    | none => rfl
    | some s2 => simp [h1, h2] at h
  | some s1 =>
    cases h2 : toStr v2 with
    | none => simp [h1, h2] at h
    | some s2 =>
      simp only [h1, h2, Option.some.injEq] at h
      have hd := congrArg String.data h
      simp only [String.data_append, List.append_assoc, List.append_cancel_left_eq,
        List.append_cancel_right_eq] at hd
      rw [String.ext hd]

theorem anonymizeField_eq_of_toStr_eq (v1 v2 : JVal) (fieldName : String)
    (h1 : isNullish v1 = false) (h2 : isNullish v2 = false) (h : toStr v1 = toStr v2) :
    anonymizeField v1 fieldName = anonymizeField v2 fieldName := by
  unfold anonymizeField
  simp only [h1, h2, h, Bool.false_eq_true, if_false]

theorem placeholder_ne_of_digits_ne (s1 s2 fieldName : String)
    (h : (if fieldName = "email" then fingerprint s1 fieldName
        else if fieldName = "phone" then (fingerprint s1 fieldName).take 4
        else (fingerprint s1 fieldName).take 8) ≠
      (if fieldName = "email" then fingerprint s2 fieldName
        else if fieldName = "phone" then (fingerprint s2 fieldName).take 4
        else (fingerprint s2 fieldName).take 8)) :
    placeholder s1 fieldName ≠ placeholder s2 fieldName := by
  intro heq
  apply h
  unfold placeholder at heq
  by_cases he : fieldName = "email"
  · simp only [he, if_true] at heq ⊢
    have hd := congrArg String.data heq
    simpa [String.data_append] using hd
  by_cases hp : fieldName = "phone"
  · simp only [he, hp, if_true, if_false] at heq ⊢
    have hd := congrArg String.data heq
    simpa [String.data_append] using hd
  by_cases ha : fieldName = "address"
  · simp only [he, hp, ha, if_true, if_false] at heq ⊢
    have hd := congrArg String.data heq
    simpa [String.data_append] using hd
  · simp only [he, hp, ha, if_false] at heq ⊢
    have hd := congrArg String.data heq
    simpa [String.data_append] using hd

theorem anonymizeField_ne_of_digits_ne (v1 v2 : JVal) (fieldName : String)
    (h1 : isNullish v1 = false) (h2 : isNullish v2 = false)
    (h : placeholderDigits v1 fieldName ≠ placeholderDigits v2 fieldName) :
    anonymizeField v1 fieldName ≠ anonymizeField v2 fieldName := by
  unfold placeholderDigits at h
  unfold anonymizeField
  simp only [h1, h2, Bool.false_eq_true, if_false]
  cases hs1 : toStr v1 with
  | none =>
    cases hs2 : toStr v2 with
    | none => simp [hs1, hs2] at h
    | some s2 => simp
  | some s1 =>
    cases hs2 : toStr v2 with
    | none => simp
    | some s2 =>
      simp only [hs1, hs2, ne_eq, Option.some.injEq] at h
      simp only [ne_eq, Option.some.injEq, JVal.str.injEq]
      exact placeholder_ne_of_digits_ne s1 s2 fieldName h

/-- C15, counterexample to the claim as stated: the number 1 and the string
"1" are different non-null values, yet `String(value)` gives the same text,
so the hashed inputs and the placeholders are the same for every field name. -/
theorem distinct_values_same_placeholder :
    JVal.num "1" ≠ JVal.str "1" ∧
    isNullish (JVal.num "1") = false ∧ isNullish (JVal.str "1") = false ∧
    (∀ fieldName, hashInput (JVal.num "1") fieldName = hashInput (JVal.str "1") fieldName) ∧
    (∀ fieldName, anonymizeField (JVal.num "1") fieldName =
      anonymizeField (JVal.str "1") fieldName) := by
  refine ⟨fun h => JVal.noConfusion h, rfl, rfl, fun _ => rfl, fun f => ?_⟩
  exact anonymizeField_eq_of_toStr_eq _ _ f rfl rfl rfl

/-- C15, amended: for every field name and every two non-null values whose
string forms differ, `anonymizeField` hashes different input strings, and the
two placeholders differ whenever the digits of the digest used in the
placeholder differ; two values with the same string form get the same
placeholder. -/
theorem distinct_string_forms_distinct_inputs (v1 v2 : JVal) (fieldName : String)
    (h1 : isNullish v1 = false) (h2 : isNullish v2 = false) :
    (toStr v1 ≠ toStr v2 → hashInput v1 fieldName ≠ hashInput v2 fieldName) ∧
    (placeholderDigits v1 fieldName ≠ placeholderDigits v2 fieldName →
      anonymizeField v1 fieldName ≠ anonymizeField v2 fieldName) ∧
    (toStr v1 = toStr v2 → anonymizeField v1 fieldName = anonymizeField v2 fieldName) :=
  ⟨fun hne heq => hne (hashInput_injective v1 v2 fieldName heq),
    anonymizeField_ne_of_digits_ne v1 v2 fieldName h1 h2,
    anonymizeField_eq_of_toStr_eq v1 v2 fieldName h1 h2⟩

set_option maxRecDepth 100000 in
theorem distinct_string_forms_distinct_inputs_witness :
    isNullish (JVal.str "a@x.com") = false ∧ isNullish (JVal.str "b@x.com") = false ∧
    hashInput (JVal.str "a@x.com") "email" ≠ hashInput (JVal.str "b@x.com") "email" ∧
    anonymizeField (JVal.str "a@x.com") "email" ≠ anonymizeField (JVal.str "b@x.com") "email" :=
  have h := distinct_string_forms_distinct_inputs (JVal.str "a@x.com") (JVal.str "b@x.com")
    "email" rfl rfl
  ⟨rfl, rfl, h.1 (by decide), h.2.1 (by decide)⟩
/-! ## Theorems: artifact names and lineage -/

theorem splitOnChar_append_sep (sep : Char) (a rest : List Char) (h : sep ∉ a) :
    splitOnChar sep (a ++ sep :: rest) = a :: splitOnChar sep rest := by
  induction a with
  | nil => simp [splitOnChar]
  | cons c cs ih =>
    have hc : c ≠ sep := fun e => h (e ▸ List.mem_cons_self c cs)
    have hcs : sep ∉ cs := fun e => h (List.mem_cons_of_mem c e)
    simp [splitOnChar, hc, ih hcs]

theorem lookup_append_absent (o : Obj) (k k2 : String) (v : JVal)
    (h : hasOwn o k = false) :
    (o ++ [(k, v)]).lookup k2 = if k2 = k then some v else o.lookup k2 := by
  induction o with
  | nil =>
    by_cases e : k2 = k
    · simp [List.lookup, e]
    · have e1 : (k2 == k) = false := by simpa using e
      simp [List.lookup, e, e1]
  | cons p rest ih =>
    obtain ⟨k1, v1⟩ := p
    have hk1 : ¬ k1 = k := by
      intro e
      simp [hasOwn, e] at h
    have hrest : hasOwn rest k = false := by
      simpa [hasOwn, hk1] using h
    by_cases e : k2 = k1
    · have e2 : ¬ k2 = k := fun e3 => hk1 (e ▸ e3)
      simp [List.lookup, e, hk1]
    · have e1 : (k2 == k1) = false := by simpa using e
      simp only [List.cons_append, List.lookup, e1]
      exact ih hrest

theorem lookup_defineProperty_self (o : Obj) (k : String) (v : JVal) :
    (defineProperty o k v).lookup k = some v := by
  unfold defineProperty
  by_cases h : hasOwn o k = true
  · simp [h, lookup_replaceOwn_self k v o h]
  · have h2 : hasOwn o k = false := by simpa using h
    simp [h2, lookup_append_absent o k k v h2]

theorem lookup_defineProperty_ne (o : Obj) (k k2 : String) (v : JVal) (hne : k2 ≠ k) :
    (defineProperty o k v).lookup k2 = o.lookup k2 := by
  unfold defineProperty
  by_cases h : hasOwn o k = true
  · simp [h, lookup_replaceOwn_ne k k2 v o hne]
  · have h2 : hasOwn o k = false := by simpa using h
    simp [h2, lookup_append_absent o k k2 v h2, hne]

theorem seedRecord_seedId (sourceId : JVal) (text : String) (clock : Nat → String)
    (index : Nat) (record : Obj) (htext : toStr sourceId = some text) :
    ∃ seed, seedRecord sourceId clock index record = some seed ∧
      getProperty seed "seedId" = JVal.str (text ++ "-" ++ toString (index + 1)) := by
  refine ⟨defineProperty
      (defineProperty record "seedId" (JVal.str (text ++ "-" ++ toString (index + 1))))
      "seedGeneratedAt" (JVal.str (clock index)), by simp only [seedRecord, htext], ?_⟩
  unfold getProperty
  rw [lookup_defineProperty_ne _ _ _ _ (by decide), lookup_defineProperty_self]

theorem transformFrom_get (sourceId : JVal) (text : String) (clock : Nat → String)
    (htext : toStr sourceId = some text) :
    ∀ (records : List Obj) (start : Nat),
      ∃ seeds, transformFrom sourceId clock start records = some seeds ∧
        seeds.length = records.length ∧
        ∀ (n : Nat) (record : Obj), records.get? n = some record →
          ∃ seed, seeds.get? n = some seed ∧
            getProperty seed "seedId" = JVal.str (text ++ "-" ++ toString (start + n + 1)) := by
  intro records
  induction records with
  | nil => exact fun start => ⟨[], rfl, rfl, fun n record h => by simp at h⟩
  | cons r rest ih =>
    intro start
    obtain ⟨seed, hseed, hid⟩ := seedRecord_seedId sourceId text clock start r htext
    obtain ⟨seeds, hseeds, hlen, hget⟩ := ih (start + 1)
    refine ⟨seed :: seeds, by simp only [transformFrom, hseed, hseeds], by simp [hlen], ?_⟩
    intro n record h
    cases n with
    | zero =>
      exact ⟨seed, rfl, hid⟩
    | succ m =>
      simp only [List.get?_cons_succ] at h
      obtain ⟨s, hs, hsid⟩ := hget m record h
      refine ⟨s, by simpa using hs, ?_⟩
      rw [hsid]
      congr 3
      omega

theorem extractSourceId_without_hyphen (id iso : String)
    (hyphen : Char.ofNat 45 ∉ id.toList) :
    extractSourceId (processedFilename id iso) = JVal.str id := by
  have hname : (processedFilename id iso).toList =
      "processed".toList ++ Char.ofNat 45 ::
        (id.toList ++ Char.ofNat 45 :: (fileTimestamp iso ++ ".json").toList) := by
    simp [processedFilename, String.toList, String.data_append]
  unfold extractSourceId
  rw [hname, splitOnChar_append_sep _ _ _ (by decide), splitOnChar_append_sep _ _ _ hyphen]
  rfl

/-- For a source id without a hyphen, the id is recovered verbatim from the
name of the processed file: `processRawFile` names its output after the id,
the seed file name starts with seed-, the id and a hyphen, the metadata
carries the id, and the n-th seed record has the seed id made of the id, a
hyphen and n. -/
theorem seed_lineage_without_hyphen (id iso iso2 generatedAt : String)
    (sourceConfig : SourceConfig) (records processed : List Obj) (schema : Option Schema)
    (clock : Nat → String)
    (hid : sourceConfig.id = id) (hyphen : Char.ofNat 45 ∉ id.toList) :
    (∀ result, processRawFile records schema sourceConfig iso = some result →
      result.processedFile = processedFilename id iso) ∧
    ∃ out, generateSeedFile (processedFilename id iso) processed iso2 generatedAt clock =
        some out ∧
      out.seedFilename = "seed-" ++ id ++ "-" ++ fileTimestamp iso2 ++ ".json" ∧
      out.metadata.sourceId = JVal.str id ∧
      (∀ (n : Nat) (record : Obj), processed.get? n = some record →
        ∃ seed, out.seedRecords.get? n = some seed ∧
          getProperty seed "seedId" = JVal.str (id ++ "-" ++ toString (n + 1))) := by
  refine ⟨fun result h => ?_, ?_⟩
  · unfold processRawFile at h
    cases hp : processRecords records schema sourceConfig with
    | none => simp [hp] at h
    | some st =>
      simp only [hp, Option.some.injEq] at h
      rw [← h, hid]
  · have hsrc := extractSourceId_without_hyphen id iso hyphen
    obtain ⟨seeds, hseeds, _, hget⟩ := transformFrom_get (JVal.str id) id clock rfl processed 0
    have htext : toStr (JVal.str id) = some id := rfl
    refine ⟨{ seedFilename := "seed-" ++ id ++ "-" ++ fileTimestamp iso2 ++ ".json",
              seedRecords := seeds,
              metadataFilename := "seed-metadata-" ++ id ++ "-" ++ fileTimestamp iso2 ++ ".json",
              metadata :=
                { seedFile := "seed-" ++ id ++ "-" ++ fileTimestamp iso2 ++ ".json",
                  sourceFile := processedFilename id iso,
                  sourceId := JVal.str id,
                  recordCount := seeds.length,
                  generatedAt := generatedAt,
                  lineageProcessedFile := processedFilename id iso,
                  lineageProcessedAt := fileTimestamp iso2 } },
      by simp only [generateSeedFile, transformToSeedFormat, hsrc, hseeds, htext],
      rfl, rfl, fun n record hrec => ?_⟩
    obtain ⟨seed, hs, hsid⟩ := hget n record hrec
    exact ⟨seed, hs, by rw [hsid, Nat.zero_add]⟩

/-- C14, at the failing input: for the source id user-api, `processRawFile`
names its output processed-user-api-<timestamp>.json, and `generateSeedFile`
recovers user from that name: the seed file name starts with seed-user-2024,
the metadata carries the source id user and the first seed record the seed
id user-1, not user-api-1. -/
theorem hyphenated_id_not_recovered :
    (processRawFile [idOnlyRecord] none hyphenSource sampleIso).map
        (fun result => result.processedFile) =
      some "processed-user-api-2024-01-02T03-04-05-678Z.json" ∧
    extractSourceId "processed-user-api-2024-01-02T03-04-05-678Z.json" = JVal.str "user" ∧
    (generateSeedFile "processed-user-api-2024-01-02T03-04-05-678Z.json" [idOnlyRecord]
      sampleIso sampleIso (fun _ => sampleIso)).map (fun out => out.seedFilename) =
      some "seed-user-2024-01-02T03-04-05-678Z.json" ∧
    (generateSeedFile "processed-user-api-2024-01-02T03-04-05-678Z.json" [idOnlyRecord]
      sampleIso sampleIso (fun _ => sampleIso)).map (fun out => out.metadata.sourceId) =
      some (JVal.str "user") ∧
    (generateSeedFile "processed-user-api-2024-01-02T03-04-05-678Z.json" [idOnlyRecord]
      sampleIso sampleIso (fun _ => sampleIso)).map
        (fun out => out.seedRecords.map (fun r => getProperty r "seedId")) =
      some [JVal.str "user-1"] := by
  refine ⟨by decide, rfl, by decide, rfl, rfl⟩

theorem prefix_up_to_separator (sep : Char) (r : List Char) :
    ∀ (a b : List Char), sep ∉ a → sep ∉ b → a ++ [sep] <+: b ++ sep :: r → a = b := by
  intro a
  induction a with
  | nil =>
    intro b _ hb h
    cases b with
    | nil => rfl
    | cons y b2 =>
      have hy : sep = y := (List.cons_prefix_cons.mp h).1
      exact absurd (hy ▸ List.mem_cons_self y b2) hb
  | cons x a2 ih =>
    intro b ha hb h
    cases b with
    | nil =>
      have hx : x = sep := (List.cons_prefix_cons.mp h).1
      exact absurd (hx ▸ List.mem_cons_self x a2) ha
    | cons y b2 =>
      have h2 := List.cons_prefix_cons.mp h
      have hrest := ih b2 (fun e => ha (List.mem_cons_of_mem x e))
        (fun e => hb (List.mem_cons_of_mem y e)) h2.2
      rw [h2.1, hrest]

theorem rawFilename_toList (sourceId endpointName iso : String) :
    (rawFilename sourceId endpointName iso).toList =
      "source-".toList ++ (sourceId.toList ++ Char.ofNat 45 ::
        ((endpointName ++ "-" ++ fileTimestamp iso).toList ++ ".json".toList)) := by
  simp [rawFilename, String.toList, String.data_append]

/-- The raw file of a source is selected for that source, and between two
source ids without a hyphen the file is selected only for its own source. -/
theorem raw_file_selected (id id2 endpointName iso : String) :
    findRawFilesForSource id [rawFilename id endpointName iso] =
      [rawFilename id endpointName iso] ∧
    (Char.ofNat 45 ∉ id.toList → Char.ofNat 45 ∉ id2.toList →
      (rawFilename id2 endpointName iso ∈
        findRawFilesForSource id [rawFilename id2 endpointName iso] ↔ id2 = id)) := by
  have hsuffix : ∀ i : String, ".json".toList.isSuffixOf (rawFilename i endpointName iso).toList
      = true := by
    intro i
    rw [List.isSuffixOf_iff_suffix, rawFilename_toList]
    exact ⟨"source-".toList ++ (i.toList ++ Char.ofNat 45 ::
      (endpointName ++ "-" ++ fileTimestamp iso).toList), by simp⟩
  have hself : ("source-" ++ id ++ "-").toList.isPrefixOf
      (rawFilename id endpointName iso).toList = true := by
    rw [List.isPrefixOf_iff_prefix, rawFilename_toList]
    exact ⟨(endpointName ++ "-" ++ fileTimestamp iso).toList ++ ".json".toList, by
      simp [String.toList, String.data_append]⟩
  have hsel : findRawFilesForSource id [rawFilename id endpointName iso] =
      [rawFilename id endpointName iso] := by
    unfold findRawFilesForSource
    rw [List.filter_cons]
    simp only [hself, hsuffix, Bool.and_self, if_true, List.filter_nil]
  refine ⟨hsel, fun h1 h2 => ?_⟩
  constructor
  · intro hmem
    have hp : ("source-" ++ id ++ "-").toList.isPrefixOf
        (rawFilename id2 endpointName iso).toList = true := by
      simp only [findRawFilesForSource, List.mem_filter, Bool.and_eq_true] at hmem
      exact hmem.2.1
    rw [List.isPrefixOf_iff_prefix, rawFilename_toList] at hp
    have hp2 : id.toList ++ [Char.ofNat 45] <+: id2.toList ++ Char.ofNat 45 ::
        ((endpointName ++ "-" ++ fileTimestamp iso).toList ++ ".json".toList) := by
      have hl : ("source-" ++ id ++ "-").toList =
          "source-".toList ++ (id.toList ++ [Char.ofNat 45]) := by
        simp [String.toList, String.data_append]
      rw [hl] at hp
      exact (List.prefix_append_right_inj _).mp hp
    exact String.ext (prefix_up_to_separator _ _ _ _ h1 h2 hp2).symm
  · intro h
    subst h
    rw [hsel]
    exact List.mem_singleton.mpr rfl

/-- C17, at the failing input: the sources user and user-api are both
configured; the raw file written for user-api and the endpoint orders starts
with source-user- and is selected for the source user as well. -/
theorem raw_file_of_other_source_selected :
    "user-api" ≠ "user" ∧
    rawFilename "user-api" "orders" sampleIso =
      "source-user-api-orders-2024-01-02T03-04-05-678Z.json" ∧
    findRawFilesForSource "user" [rawFilename "user-api" "orders" sampleIso] =
      ["source-user-api-orders-2024-01-02T03-04-05-678Z.json"] ∧
    findRawFilesForSource "user-api" [rawFilename "user-api" "orders" sampleIso] =
      ["source-user-api-orders-2024-01-02T03-04-05-678Z.json"] := by
  refine ⟨by decide, by decide, by decide, by decide⟩

end Pipeline

